import Mathlib

/-!
# RwgTex, `src/freeimage.cpp`: pixel-buffer routines

A shallow embedding of the pixel-buffer algorithms of `freeimage.cpp` and
theorems about them.

Modelling conventions.

* A `byte *` is modelled by `Mem`, the byte stored at every signed offset from
  the pointer, so that a read or write outside a buffer stays visible.
* A bitmap (`FIBITMAP`) carries its width, height, bytes per pixel
  (`FreeImage_GetBPP / 8`), pitch and raster.
* `float` and `double` values are modelled by exact rationals: every
  arithmetic operation is the exact one, without a rounding step, so the
  theorems speak of the formulas the code evaluates, not of the last-bit effects
  of binary floating point. A division by zero has no counterpart in the model.
* A counted C loop is `forLoop n body`: `body 0`, ..., `body (n-1)` in order.
* Offsets and sizes are assumed to fit their C types, except where a wrap is
  written out (`wrapInt`, `toUInt32`, `toInt32`, `castByte`).
* `fiCreate` and `fiCombine` return `none` where the code calls `Error`;
  `ICCProfile_Test_sRGB` returns `none` where the code accesses memory outside
  the profile blob or outside its local array.
* `fiFilter` works on numbered memory blocks (`Blocks`), so that two pointers to
  the same buffer stay the same buffer. It returns `none` where the code reads
  its local `filtered2` without having assigned it and the variable does not
  hold the address of a bitmap, and where the bitmap whose address it returns is
  one it has unloaded with `fiFree`.
* `fiSharpen` returns `none` where the conversion `(int)` of a value that does
  not fit `int` has no defined result (`toInt`).
* External routines of FreeImage (`FreeImage_Allocate`, `FreeImage_Clone`) and
  the content of blocks obtained from `mem_alloc` are parameters.
-/

namespace RwgTex

/-! ## Memory, loops, conversions -/

/-- Raw memory seen through a `byte *`: the byte at each signed offset from the pointer. -/
abbrev Mem := Int → Nat

/-- The assignment `m[a] = v`. -/
def Mem.store (m : Mem) (a : Int) (v : Nat) : Mem :=
  fun i => if i = a then v else m i

/-- Memory whose first bytes are those of a list (zero elsewhere). -/
def Mem.ofList (l : List Nat) : Mem :=
  fun i => if 0 ≤ i then l.getD i.toNat 0 else 0

/-- A counted loop: runs `body 0`, `body 1`, ..., `body (n-1)` in that order. -/
def forLoop {σ : Type} : Nat → (Nat → σ → σ) → σ → σ
  | 0, _, s => s
  | n + 1, body, s => body n (forLoop n body s)

/-- The call `memcpy(dst + d, src + s, n)`. -/
def memcpy (dst : Mem) (d : Int) (src : Mem) (s : Int) (n : Nat) : Mem :=
  fun i => if d ≤ i ∧ i < d + n then src (s + (i - d)) else dst i

/-- Conversion of a real value to an integer type: truncation toward zero. -/
def truncQ (q : ℚ) : Int := if 0 ≤ q then ⌊q⌋ else ⌈q⌉

/-- Storing an integer into a `byte`: reduction modulo 256. -/
def castByte (z : Int) : Nat := (z % 256).toNat

/-- The cast `(unsigned int)` of a non-negative real value, wrapping at 32 bits. -/
def toUInt32 (q : ℚ) : Nat := (truncQ q).toNat % 2 ^ 32

/-- Storing an `unsigned int` into an `int`: two's complement reinterpretation. -/
def toInt32 (n : Nat) : Int := if n < 2 ^ 31 then (n : Int) else (n : Int) - 2 ^ 32

/-- Wrap-around of an `int` computation to 32-bit two's complement. -/
def wrapInt (z : Int) : Int := (z + 2 ^ 31) % 2 ^ 32 - 2 ^ 31

/-- A FreeImage bitmap: dimensions, bytes per pixel, bytes per row, raster. -/
structure FIBITMAP where
  /-- The value of `FreeImage_GetWidth`. -/
  width : Nat
  /-- The value of `FreeImage_GetHeight`. -/
  height : Nat
  /-- The value of `FreeImage_GetBPP(bitmap) / 8`. -/
  bpp : Nat
  /-- The value of `FreeImage_GetPitch`. -/
  pitch : Nat
  /-- The raster behind `FreeImage_GetBits`. -/
  bits : Mem

/-! ## Pixel Buffer Adapter: `fiGetUnalignedData`, `fiStoreUnalignedData` -/

/-- The pointer returned by `fiGetUnalignedData`: the bitmap's own raster, or a
separate block obtained from `mem_alloc`. -/
inductive DataPtr where
  /-- The pointer `FreeImage_GetBits(bitmap)` itself. -/
  | own : DataPtr
  /-- A block from `mem_alloc`, with its content. -/
  | heap : Mem → DataPtr

/-- Model of `fiGetUnalignedData(bitmap, &data_allocated, force_allocate)`: the
returned pointer and the value left in `data_allocated`. `fresh` is the content
of the block `mem_alloc` hands out. -/
def fiGetUnalignedData (bitmap : FIBITMAP) (force_allocate : Bool) (fresh : Mem) :
    DataPtr × Bool :=
  let w := bitmap.width
  let h := bitmap.height
  let bpp := bitmap.bpp
  let pitch := bitmap.pitch
  if w * bpp = pitch ∧ force_allocate = false then
    (DataPtr.own, false)
  else
    (DataPtr.heap
      (forLoop h
        (fun y dataptr =>
          memcpy dataptr ((y : Int) * ((w * bpp : Nat) : Int)) bitmap.bits
            ((y : Int) * (pitch : Int)) (w * bpp))
        fresh),
     true)

/-- Model of `fiStoreUnalignedData(bitmap, dataptr, width, height, bpp)`: the
bitmap's raster after the call. -/
def fiStoreUnalignedData (bitmap : FIBITMAP) (dataptr : DataPtr) (width height bpp : Nat) :
    Mem :=
  match dataptr with
  | .own => bitmap.bits
  | .heap p =>
    forLoop height
      (fun y data =>
        memcpy data ((y : Int) * (bitmap.pitch : Int)) p
          ((y : Int) * ((width * bpp : Nat) : Int)) (width * bpp))
      bitmap.bits

/-! ## Resampler: `fiRescaleNearestNeighbor` -/

/-- Model of `fiCreate(width, height, bpp, sentinelName)`. `FreeImage_Allocate` is
the external allocator (width, height, bits per pixel); `none` is the call of
`Error` on a failed allocation. -/
def fiCreate (FreeImage_Allocate : Int → Int → Nat → Option FIBITMAP)
    (width height : Int) (bpp : Nat) : Option FIBITMAP :=
  FreeImage_Allocate width height (bpp * 8)

/-- Model of `fiRescaleNearestNeighbor(bitmap, new_width, new_height, removeSource)`:
the scaled bitmap. The palette of an 8-bit result and the resolution fields are
not part of the model. -/
def fiRescaleNearestNeighbor (FreeImage_Allocate : Int → Int → Nat → Option FIBITMAP)
    (bitmap : FIBITMAP) (new_width new_height : Int) : Option FIBITMAP :=
  let width := bitmap.width
  let height := bitmap.height
  let src_pitch := bitmap.pitch
  let btpp := bitmap.bpp
  match fiCreate FreeImage_Allocate new_width new_height btpp with
  | none => none
  | some scaled =>
    let dst_pitch := scaled.pitch
    let src_bits := bitmap.bits
    let xFactor : ℚ := (width : ℚ) / (new_width : ℚ)
    let yFactor : ℚ := (height : ℚ) / (new_height : ℚ)
    some { scaled with
      bits :=
        forLoop new_height.toNat
          (fun y dst_bits =>
            let oy : Int := truncQ ((y : ℚ) * yFactor)
            let lined : Int := (y : Int) * (dst_pitch : Int)
            let lines : Int := oy * (src_pitch : Int)
            forLoop new_width.toNat
              (fun x dst_bits =>
                let ox : Int := truncQ ((x : ℚ) * xFactor)
                forLoop btpp
                  (fun d dst_bits =>
                    dst_bits.store (lined + ((x : Int) * (btpp : Int) + (d : Int)))
                      (src_bits (lines + (ox * (btpp : Int) + (d : Int)))))
                  dst_bits)
              dst_bits)
          scaled.bits }

/-! ## Color Profile Classifier: `ICCProfile_Test_sRGB` -/

/-- The bytes of a C string literal, without the terminating NUL. -/
def cstr (s : String) : List Nat := s.data.map Char.toNat

/-- A read of `icc[a]` from a blob of `icc.length` bytes; `none` when the offset
lies outside the blob. -/
def readIcc (icc : List Nat) (a : Int) : Option Nat :=
  if 0 ≤ a then icc[a.toNat]? else none

/-- The expression `p[0]*0x1000000 + p[1]*0x10000 + p[2]*0x100 + p[3]` at offset
`a`, computed in `int`. -/
def readBE32 (icc : List Nat) (a : Int) : Option Int := do
  let b0 ← readIcc icc a
  let b1 ← readIcc icc (a + 1)
  let b2 ← readIcc icc (a + 2)
  let b3 ← readIcc icc (a + 3)
  pure (wrapInt ((b0 : Int) * 0x1000000 + (b1 : Int) * 0x10000 + (b2 : Int) * 0x100 + (b3 : Int)))

/-- The test `!memcmp(tag, "desc", 4)`, which reads four bytes at `tag`. -/
def isDescTag (icc : List Nat) (tag : Int) : Option Bool := do
  let b0 ← readIcc icc tag
  let b1 ← readIcc icc (tag + 1)
  let b2 ← readIcc icc (tag + 2)
  let b3 ← readIcc icc (tag + 3)
  pure ([b0, b1, b2, b3] == cstr "desc")

/-- The loop of `strncpy(tagdata, icc + src, count)` for a count that fits the
destination: `n` bytes remain, `j` bytes are done. Copies up to the first NUL of
the source and fills the rest of the count with zeros; adds no terminator. -/
def strncpy (icc : List Nat) (src : Int) : Nat → Nat → (Nat → Nat) → Option (Nat → Nat)
  | 0, _, tagdata => some tagdata
  | n + 1, j, tagdata =>
    match readIcc icc (src + j) with
    | none => none
    | some c =>
      if c = 0 then some (fun k => if j ≤ k ∧ k < j + (n + 1) then 0 else tagdata k)
      else strncpy icc src n (j + 1) (fun k => if k = j then c else tagdata k)

/-- The test `!strcmp(tagdata + j, lit)` for a literal without NUL bytes. -/
def strEq (tagdata : Nat → Nat) : Nat → List Nat → Bool
  | j, [] => tagdata j == 0
  | j, c :: cs => tagdata j == c && strEq tagdata (j + 1) cs

/-- The body of `if (!memcmp(tag, "desc", 4))`. `tagdata` is the content the
uninitialised array `char tagdata[256]` happens to have. -/
def descTag (icc : List Nat) (tagdata : Nat → Nat) (tag : Int) : Option Bool := do
  let datasize : Int := icc.length
  let tag_ofs ← readBE32 icc (tag + 4)
  let tag_size ← readBE32 icc (tag + 8)
  if wrapInt (tag_ofs + tag_size) > datasize then
    pure false
  else
    let count : Int := min 255 (wrapInt (tag_size - 12))
    -- a negative count becomes a huge `size_t`: `strncpy` then runs past
    -- `tagdata` (or past the blob)
    if count < 0 then
      none
    else do
      let tagdata ← strncpy icc (tag_ofs + 12) count.toNat 0 tagdata
      pure (strEq tagdata 0 (cstr "sRGB IEC61966-2.1")
        || strEq tagdata 0 (cstr "sRGB IEC61966-2-1")
        || strEq tagdata 0 (cstr "sRGB IEC61966")
        || strEq tagdata 0 (cstr "* wsRGB"))

/-- The loop `for (i = 0; i < numTags; i++)`: `n` iterations remain, starting at
index `i`. -/
def scanTags (icc : List Nat) (tagdata : Nat → Nat) : Nat → Nat → Option Bool
  | 0, _ => some false
  | n + 1, i =>
    let datasize : Int := icc.length
    let tag : Int := 128 + 4 + (i : Int) * 12
    if tag > datasize then
      some false
    else
      match isDescTag icc tag with
      | none => none
      | some true => descTag icc tagdata tag
      | some false => scanTags icc tagdata n (i + 1)

/-- Model of `ICCProfile_Test_sRGB(profile_data, datasize)` for a blob of
`datasize = icc.length` bytes (`none` as argument: a null pointer). The result is
`none` when the routine accesses memory outside the blob or outside `tagdata`. -/
def ICCProfile_Test_sRGB (profile_data : Option (List Nat)) (tagdata : Nat → Nat) :
    Option Bool :=
  match profile_data with
  | none => some false
  | some icc => do
    let b36 ← readIcc icc 36
    if b36 ≠ 97 then pure false else do
    let b37 ← readIcc icc 37
    if b37 ≠ 99 then pure false else do
    let b38 ← readIcc icc 38
    if b38 ≠ 115 then pure false else do
    let b39 ← readIcc icc 39
    if b39 ≠ 112 then pure false else do
    let numTags ← readBE32 icc 128
    scanTags icc tagdata numTags.toNat 0

/-! ## Compositor: `fiCombine` -/

/-- The blend modes `fiCombine` switches on. -/
inductive FREE_IMAGE_COMBINE where
  | COMBINE_RGB
  | COMBINE_ALPHA
  | COMBINE_R_TO_ALPHA
  | COMBINE_ALPHA_TO_RGB
  | COMBINE_ADD
  | COMBINE_MIN
  | COMBINE_MAX
  deriving DecidableEq

/-- The expression `(byte)floor(o*rb + i*blend + 0.5)`. -/
def blendByte (o i : Nat) (rb blend : ℚ) : Nat :=
  castByte ⌊(o : ℚ) * rb + (i : ℚ) * blend + 1 / 2⌋

/-- The expression `(byte)max(0, min(floor(o + i*blend), 255))`. -/
def addByte (o i : Nat) (blend : ℚ) : Nat :=
  castByte (max 0 (min ⌊(o : ℚ) + (i : ℚ) * blend⌋ 255))

/-- One turn of the `while (in < end)` loop of a mode, with `out` at offset `o` of
the target raster and `in` at offset `i` of the overlay raster `inp`. The depth
tests of the mode are in `combineRow`. -/
def combinePixel (mode : FREE_IMAGE_COMBINE) (rb blend : ℚ) (inp : Mem) (o i : Int)
    (out : Mem) : Mem :=
  match mode with
  | .COMBINE_RGB =>
    let out := out.store o (blendByte (out o) (inp i) rb blend)
    let out := out.store (o + 1) (blendByte (out (o + 1)) (inp (i + 1)) rb blend)
    out.store (o + 2) (blendByte (out (o + 2)) (inp (i + 2)) rb blend)
  | .COMBINE_ALPHA =>
    out.store (o + 3) (blendByte (out (o + 3)) (inp (i + 3)) rb blend)
  | .COMBINE_R_TO_ALPHA =>
    out.store (o + 3) (blendByte (out (o + 3)) (inp i) rb blend)
  | .COMBINE_ALPHA_TO_RGB =>
    let out := out.store o (blendByte (out o) (inp (i + 3)) rb blend)
    let out := out.store (o + 1) (blendByte (out (o + 1)) (inp (i + 3)) rb blend)
    let out := out.store (o + 2) (blendByte (out (o + 2)) (inp (i + 3)) rb blend)
    out.store (o + 3) 255
  | .COMBINE_ADD =>
    let out := out.store o (addByte (out o) (inp i) blend)
    let out := out.store (o + 1) (addByte (out (o + 1)) (inp (i + 1)) blend)
    out.store (o + 2) (addByte (out (o + 2)) (inp (i + 2)) blend)
  | .COMBINE_MIN =>
    let out := out.store o (min (out o) (inp i))
    let out := out.store (o + 1) (min (out (o + 1)) (inp (i + 1)))
    out.store (o + 2) (min (out (o + 2)) (inp (i + 2)))
  | .COMBINE_MAX =>
    let out := out.store o (max (out o) (inp i))
    let out := out.store (o + 1) (max (out (o + 1)) (inp (i + 1)))
    out.store (o + 2) (max (out (o + 2)) (inp (i + 2)))

/-- Whether the depth tests of a mode let the row through (otherwise a `Warning`
is printed and nothing is written). -/
def depthsAccepted (mode : FREE_IMAGE_COMBINE) (sbpp cbpp : Nat) : Bool :=
  match mode with
  | .COMBINE_RGB => if sbpp ≠ 3 ∧ sbpp ≠ 4 then false else if cbpp ≠ 3 ∧ cbpp ≠ 4 then false else true
  | .COMBINE_ALPHA => if sbpp ≠ 4 then false else if cbpp ≠ 4 then false else true
  | .COMBINE_R_TO_ALPHA => if sbpp ≠ 4 then false else true
  | .COMBINE_ALPHA_TO_RGB => if sbpp ≠ 3 ∧ sbpp ≠ 4 then false else if cbpp ≠ 4 then false else true
  | .COMBINE_ADD => if sbpp ≠ 3 ∧ sbpp ≠ 4 then false else if cbpp ≠ 3 ∧ cbpp ≠ 4 then false else true
  | .COMBINE_MIN => if sbpp ≠ 3 ∧ sbpp ≠ 4 then false else if cbpp ≠ 3 ∧ cbpp ≠ 4 then false else true
  | .COMBINE_MAX => if sbpp ≠ 3 ∧ sbpp ≠ 4 then false else if cbpp ≠ 3 ∧ cbpp ≠ 4 then false else true

/-- The body of the row loop of `fiCombine`: the `switch` on one row, `out_data`
at offset `ro` and `in_data` at offset `ri`. The loop `while (in < end)` with
`end = in_data + w*cbpp` and step `cbpp` makes `w` turns (`cbpp` is 1, 3 or 4). -/
def combineRow (mode : FREE_IMAGE_COMBINE) (sbpp cbpp w : Nat) (rb blend : ℚ) (inp : Mem)
    (ro ri : Int) (out : Mem) : Mem :=
  if depthsAccepted mode sbpp cbpp then
    forLoop w
      (fun j out =>
        combinePixel mode rb blend inp (ro + (j : Int) * (sbpp : Int))
          (ri + (j : Int) * (cbpp : Int)) out)
      out
  else
    out

/-- Model of `fiCombine(source, combine, mode, blend, destroyCombine)` on two
bitmaps that do not share storage: the raster of `source` after the call; `none`
when `Error` is called. -/
def fiCombine (source combine : FIBITMAP) (mode : FREE_IMAGE_COMBINE) (blend : ℚ) :
    Option Mem :=
  let cbpp := combine.bpp
  let sbpp := source.bpp
  if cbpp ≠ 1 ∧ cbpp ≠ 3 ∧ cbpp ≠ 4 then none
  else if sbpp ≠ 1 ∧ sbpp ≠ 3 ∧ sbpp ≠ 4 then none
  else if source.width ≠ combine.width ∨ source.height ≠ combine.height then none
  else
    let rb : ℚ := 1 - blend
    let w := source.width
    let h := source.height
    let inpitch := combine.pitch
    let outpitch := source.pitch
    some
      (forLoop h
        (fun y out_data =>
          combineRow mode sbpp cbpp w rb blend combine.bits
            ((y : Int) * (outpitch : Int)) ((y : Int) * (inpitch : Int)) out_data)
        source.bits)

/-- The bytes of a pixel that the loop body of a mode stores into, as the range
`lo .. hi - 1` of offsets from `out`: `out[0..2]` for `COMBINE_RGB`, `COMBINE_ADD`,
`COMBINE_MIN`, `COMBINE_MAX`, `out[3]` for `COMBINE_ALPHA` and
`COMBINE_R_TO_ALPHA`, `out[0..3]` for `COMBINE_ALPHA_TO_RGB`. -/
def storeRange (mode : FREE_IMAGE_COMBINE) : Nat × Nat :=
  match mode with
  | .COMBINE_RGB => (0, 3)
  | .COMBINE_ALPHA => (3, 4)
  | .COMBINE_R_TO_ALPHA => (3, 4)
  | .COMBINE_ALPHA_TO_RGB => (0, 4)
  | .COMBINE_ADD => (0, 3)
  | .COMBINE_MIN => (0, 3)
  | .COMBINE_MAX => (0, 3)

/-! ## Convolution Engine: one pass of `fiFilter` -/

/-- One filtered sample: `n` is the weighted sum of the nine bytes at the given
offsets, `t = (unsigned int)fabs(n/scale + bias)` is stored in an `int`, and
`min(t, 255)` is stored in a byte. -/
def kernelSample (inp : Mem) (m : Nat → ℚ) (scale bias : ℚ)
    (a0 a1 a2 a3 a4 a5 a6 a7 a8 : Int) : Nat :=
  let n : ℚ := (inp a0 : ℚ) * m 0 + (inp a1 : ℚ) * m 1 + (inp a2 : ℚ) * m 2
    + (inp a3 : ℚ) * m 3 + (inp a4 : ℚ) * m 4 + (inp a5 : ℚ) * m 5
    + (inp a6 : ℚ) * m 6 + (inp a7 : ℚ) * m 7 + (inp a8 : ℚ) * m 8
  let t : Int := toInt32 (toUInt32 |n / scale + bias|)
  castByte (min t 255)

/-- The interior loops of a pass (`for (y = 1; y < lasty; y++)`,
`for (x = 1; x < lastx; x++)`). -/
def filterInterior (width height bpp : Nat) (m : Nat → ℚ) (scale bias : ℚ) (inp : Mem)
    (out : Mem) : Mem :=
  forLoop (height - 2)
    (fun yi out =>
      forLoop (width - 2)
        (fun xi out =>
          let y : Int := (yi : Int) + 1
          let x : Int := (xi : Int) + 1
          let ofs4 : Int := ((y) * width + (x)) * bpp
          let ofs0 : Int := ((y - 1) * width + (x - 1)) * bpp
          let ofs1 : Int := ((y - 1) * width + (x)) * bpp
          let ofs2 : Int := ((y - 1) * width + (x + 1)) * bpp
          let ofs3 : Int := ((y) * width + (x - 1)) * bpp
          let ofs5 : Int := ((y) * width + (x + 1)) * bpp
          let ofs6 : Int := ((y + 1) * width + (x - 1)) * bpp
          let ofs7 : Int := ((y + 1) * width + (x)) * bpp
          let ofs8 : Int := ((y + 1) * width + (x - 1)) * bpp
          let out := out.store ofs4
            (kernelSample inp m scale bias ofs0 ofs1 ofs2 ofs3 ofs4 ofs5 ofs6 ofs7 ofs8)
          forLoop (bpp - 1)
            (fun ci out =>
              let c : Int := (ci : Int) + 1
              out.store (ofs4 + c)
                (kernelSample inp m scale bias (ofs0 + c) (ofs1 + c) (ofs2 + c) (ofs3 + c)
                  (ofs4 + c) (ofs5 + c) (ofs6 + c) (ofs7 + c) (ofs8 + c)))
            out)
        out)
    out

/-- The loop that copies the four corners. -/
def filterCorners (width height bpp : Nat) (inp : Mem) (out : Mem) : Mem :=
  let pitch : Int := (width : Int) * (bpp : Int)
  forLoop bpp
    (fun ci out =>
      let c : Int := ci
      let out := out.store c (inp c)
      let out := out.store (pitch - bpp + c) (inp (pitch - bpp + c))
      let out := out.store (((height : Int) - 1) * pitch + c) (inp (((height : Int) - 1) * pitch + c))
      out.store ((height : Int) * pitch - bpp + c) (inp ((height : Int) * pitch - bpp + c)))
    out

/-- The loop over the first row. -/
def filterFirstRow (width bpp : Nat) (m : Nat → ℚ) (scale bias : ℚ) (inp : Mem)
    (out : Mem) : Mem :=
  forLoop (width - 2)
    (fun xi out =>
      let x : Int := (xi : Int) + 1
      forLoop bpp
        (fun ci out =>
          let c : Int := ci
          out.store (x * bpp + c)
            (kernelSample inp m scale bias
              ((x - 1) * bpp + c) (x * bpp + c) ((x + 1) * bpp + c)
              ((x - 1) * bpp + c) (x * bpp + c) ((x + 1) * bpp + c)
              ((width + (x - 1)) * bpp + c) ((width + (x)) * bpp + c)
              ((width + (x - 1)) * bpp + c)))
        out)
    out

/-- The loop over the last row. -/
def filterLastRow (width height bpp : Nat) (m : Nat → ℚ) (scale bias : ℚ) (inp : Mem)
    (out : Mem) : Mem :=
  let pitch : Int := (width : Int) * (bpp : Int)
  let y : Int := ((height : Int) - 1) * pitch
  forLoop (width - 2)
    (fun xi out =>
      let x : Int := (xi : Int) + 1
      forLoop bpp
        (fun ci out =>
          let c : Int := ci
          out.store (y + x * bpp + c)
            (kernelSample inp m scale bias
              (y - pitch + (x - 1) * bpp + c) (y - pitch + x * bpp + c)
              (y - pitch + (x + 1) * bpp + c)
              (y + (x - 1) * bpp + c) (y + x * bpp + c) (y + (x + 1) * bpp + c)
              (y + (x - 1) * bpp + c) (y + x * bpp + c) (y + (x - 1) * bpp + c)))
        out)
    out

/-- The body shared by the left-side and right-side loops: the row offset `y`
runs from `y0` in steps of `pitch`, for `i = 1, ..., height - 2`. -/
def filterSide (y0 : Int) (width height bpp : Nat) (m : Nat → ℚ) (scale bias : ℚ)
    (inp : Mem) (out : Mem) : Mem :=
  let pitch : Int := (width : Int) * (bpp : Int)
  forLoop (height - 2)
    (fun ii out =>
      let y : Int := y0 + (ii : Int) * pitch
      forLoop bpp
        (fun ci out =>
          let c : Int := ci
          out.store (y + c)
            (kernelSample inp m scale bias
              (y - pitch + c) (y - pitch + bpp + c) (y - pitch + 2 * bpp + c)
              (y + c) (y + bpp + c) (y + 2 * bpp + c)
              (y + pitch + c) (y + pitch + bpp + c) (y + pitch + 2 * bpp + c)))
        out)
    out

/-- One turn of the loop `for ( ; iteractions > 0; iteractions--)` of `fiFilter`
up to the buffer swap, on packed rasters (`pitch = width * bpp`): reads `inp`,
writes `out`. The two are distinct buffers. -/
def filterPass (width height bpp : Nat) (m : Nat → ℚ) (scale bias : ℚ) (inp : Mem)
    (out : Mem) : Mem :=
  let pitch : Int := (width : Int) * (bpp : Int)
  let out := filterInterior width height bpp m scale bias inp out
  let out := filterCorners width height bpp inp out
  let out := filterFirstRow width bpp m scale bias inp out
  let out := filterLastRow width height bpp m scale bias inp out
  let out := filterSide pitch width height bpp m scale bias inp out
  filterSide (pitch * 2 - bpp) width height bpp m scale bias inp out

/-- The memory blocks a run of `fiFilter` works on, by number: 0 is the raster of
`bitmap`, 1 the raster of `filtered`, 2 the raster of `filtered2` when that is
not `bitmap`, and 3, 4, 5 are the blocks `fiGetUnalignedData` obtains from
`mem_alloc` for `in_data`, `out_data`, `out2_data`. A `byte *` of the routine is
the number of the block it points to. -/
abbrev Blocks := Nat → Mem

/-- Replacing the content of block `p`. -/
def Blocks.set (H : Blocks) (p : Nat) (v : Mem) : Blocks :=
  fun q => if q = p then v else H q

/-- The call `fiGetUnalignedData(b, &allocated, false)` for a bitmap `b` whose
raster is block `raster`: the blocks after the call and the pointer returned. A
packed copy goes to block `k`, which `mem_alloc` hands out with content `fresh`. -/
def getUnaligned (H : Blocks) (b : FIBITMAP) (raster k : Nat) (fresh : Mem) : Blocks × Nat :=
  match (fiGetUnalignedData { b with bits := H raster } false fresh).1 with
  | .own => (H, raster)
  | .heap p => (H.set k p, k)

/-- The call `fiStoreUnalignedData(temp, ptr, width, height, bpp)` for a bitmap
`temp` whose raster is block `raster`: the bitmap after the call. -/
def storeUnaligned (H : Blocks) (temp : FIBITMAP) (raster ptr : Nat) (width height bpp : Nat) :
    FIBITMAP :=
  { temp with
    bits :=
      fiStoreUnalignedData { temp with bits := H raster }
        (if ptr = raster then DataPtr.own else DataPtr.heap (H ptr)) width height bpp }

/-- The memory blocks and the locals `in`, `out` of `fiFilter`. -/
structure FilterState where
  /-- The memory blocks. -/
  H : Blocks
  /-- The pointer `in`. -/
  inp : Nat
  /-- The pointer `out`. -/
  out : Nat

/-- One turn of the loop `for ( ; iteractions > 0; iteractions--)`: the pass from
`in` to `out`, then the swap of the buffers. -/
def filterTurn (pass : Mem → Mem → Mem) (out_data out2_data : Nat) (st : FilterState) :
    FilterState :=
  let H := st.H.set st.out (pass (st.H st.inp) (st.H st.out))
  if st.out = out_data then { H := H, inp := out_data, out := out2_data }
  else { H := H, inp := out2_data, out := out_data }

/-- The part of `fiFilter` from the calls of `fiGetUnalignedData` on, for a local
`filtered2` that points to the bitmap `filtered2` whose raster is block `raster2`
(0 when `filtered2` is `bitmap`, else 2). After the loop `temp` is `filtered2`
or `filtered`. When `temp` is `filtered2`, the test `temp == filtered` fails and
`filtered != bitmap` holds, so the routine calls `fiFree(filtered)` and, with
`removeSource`, `fiFree(bitmap)`: if `filtered2` is `bitmap`, the bitmap whose
address is returned has been unloaded (`none`). When `temp` is `filtered`, the
routine unloads `filtered2` if it is not `bitmap`, and `bitmap` with
`removeSource`. -/
def fiFilterRun (mem_alloc : Nat → Mem) (bitmap filtered filtered2 : FIBITMAP) (raster2 : Nat)
    (m : Nat → ℚ) (scale bias : ℚ) (iteractions : Int) (removeSource : Bool) :
    Option FIBITMAP :=
  let width := bitmap.width
  let height := bitmap.height
  let bpp := bitmap.bpp
  let H : Blocks :=
    fun p => if p = 0 then bitmap.bits else if p = 1 then filtered.bits else filtered2.bits
  let g0 := getUnaligned H bitmap 0 3 (mem_alloc 0)
  let g1 := getUnaligned g0.1 filtered 1 4 (mem_alloc 1)
  let g2 := getUnaligned g1.1 filtered2 raster2 5 (mem_alloc 2)
  let in_data := g0.2
  let out_data := g1.2
  let out2_data := g2.2
  let st :=
    forLoop iteractions.toNat
      (fun _ st => filterTurn (filterPass width height bpp m scale bias) out_data out2_data st)
      { H := g2.1, inp := in_data, out := out_data }
  if st.out = out_data then
    if removeSource = true ∧ raster2 = 0 then none
    else some (storeUnaligned st.H filtered2 raster2 out2_data width height bpp)
  else some (storeUnaligned st.H filtered 1 out_data width height bpp)

/-- Model of `fiFilter(bitmap, m, scale, bias, iteractions, removeSource)` for a
non-null `bitmap`: the bitmap returned. `FreeImage_Clone` is the external copy of
a bitmap and `mem_alloc k` the content of the `k`-th block handed out. The local
`filtered2` is assigned only when `iteractions > 1`; otherwise the calls that
follow read the value the variable happens to hold, `filtered2_stale`: a bitmap
it points to (one other than `bitmap` and `filtered`, with a raster of its own),
or `none` when it holds no such address, in which case the run has no defined
result (`none`). The result is also `none` when the routine unloads the bitmap
whose address it returns (see `fiFilterRun`). -/
def fiFilter (FreeImage_Clone : FIBITMAP → FIBITMAP) (mem_alloc : Nat → Mem)
    (filtered2_stale : Option FIBITMAP) (bitmap : FIBITMAP) (m : Nat → ℚ) (scale bias : ℚ)
    (iteractions : Int) (removeSource : Bool) : Option FIBITMAP :=
  let bpp := bitmap.bpp
  if bpp ≠ 1 ∧ bpp ≠ 3 ∧ bpp ≠ 4 then some (FreeImage_Clone bitmap)
  else
    let filtered := FreeImage_Clone bitmap
    if iteractions > 1 then
      if removeSource then
        fiFilterRun mem_alloc bitmap filtered bitmap 0 m scale bias iteractions removeSource
      else
        fiFilterRun mem_alloc bitmap filtered (FreeImage_Clone bitmap) 2 m scale bias
          iteractions removeSource
    else
      match filtered2_stale with
      | none => none
      | some filtered2 =>
        fiFilterRun mem_alloc bitmap filtered filtered2 2 m scale bias iteractions removeSource

/-- Model of `fiBlur(bitmap, iteractions, removeSource)` for a non-null `bitmap`. -/
def fiBlur (FreeImage_Clone : FIBITMAP → FIBITMAP) (mem_alloc : Nat → Mem)
    (filtered2_stale : Option FIBITMAP) (bitmap : FIBITMAP) (iteractions : Int)
    (removeSource : Bool) : Option FIBITMAP :=
  let bpp := bitmap.bpp
  if bpp ≠ 1 ∧ bpp ≠ 3 ∧ bpp ≠ 4 then some (FreeImage_Clone bitmap)
  else
    let k : Nat → ℚ := fun i => ([1, 2, 1, 2, 4, 2, 1, 2, 1] : List ℚ).getD i 0
    let scale : ℚ := forLoop 9 (fun i scale => scale + k i) 0
    fiFilter FreeImage_Clone mem_alloc filtered2_stale bitmap k scale 0 iteractions removeSource

/-! ## Convolution Engine: `fiSharpen` -/

/-- The locals `nc`, `rgb[0..2]` of `fiFixTransparentPixels`. -/
structure FillAcc where
  /-- Number of neighbours counted. -/
  nc : Nat
  /-- Sum of channel 0. -/
  rgb0 : ℚ
  /-- Sum of channel 1. -/
  rgb1 : ℚ
  /-- Sum of channel 2. -/
  rgb2 : ℚ

/-- Model of the local `fill(_x,_y)` of `fiFixTransparentPixels`, on the source
raster `data`. -/
def fill (data : Mem) (w h : Int) (tex_binaryAlphaMin : Int) (_x _y : Int) (acc : FillAcc) :
    FillAcc :=
  let nx : Int := if _x < 0 then w - 1 else if _x ≥ w then 0 else _x
  let ny : Int := if _y < 0 then h - 1 else if _y ≥ h then 0 else _y
  let npix : Int := w * 4 * ny + nx * 4
  if (data (npix + 3) : Int) > tex_binaryAlphaMin then
    { nc := acc.nc + 1
      rgb0 := acc.rgb0 + (data npix : ℚ)
      rgb1 := acc.rgb1 + (data (npix + 1) : ℚ)
      rgb2 := acc.rgb2 + (data (npix + 2) : ℚ) }
  else
    acc

/-- The eight `fill` calls for the pixel `(x, y)`, in source order. -/
def fillAll (data : Mem) (w h : Int) (tex_binaryAlphaMin : Int) (x y : Int) : FillAcc :=
  let acc : FillAcc := { nc := 0, rgb0 := 0, rgb1 := 0, rgb2 := 0 }
  let acc := fill data w h tex_binaryAlphaMin (x - 1) (y - 1) acc
  let acc := fill data w h tex_binaryAlphaMin (x) (y - 1) acc
  let acc := fill data w h tex_binaryAlphaMin (x + 1) (y - 1) acc
  let acc := fill data w h tex_binaryAlphaMin (x - 1) (y) acc
  let acc := fill data w h tex_binaryAlphaMin (x + 1) (y) acc
  let acc := fill data w h tex_binaryAlphaMin (x - 1) (y + 1) acc
  let acc := fill data w h tex_binaryAlphaMin (x) (y + 1) acc
  fill data w h tex_binaryAlphaMin (x + 1) (y + 1) acc

/-- The expression `(byte)min(255, (p*br + (rgb/nc)*b))`. -/
def fixByte (p : Nat) (rgb : ℚ) (nc : Nat) (b br : ℚ) : Nat :=
  castByte (truncQ (min 255 ((p : ℚ) * br + (rgb / (nc : ℚ)) * b)))

/-- The body of the inner loop of `fiFixTransparentPixels` for the pixel `(x, y)`:
reads `data`, writes `out`. -/
def fixPixel (data : Mem) (w h : Nat) (tex_binaryAlphaMin : Int) (x y : Nat) (out : Mem) :
    Mem :=
  let pixel : Int := (w : Int) * 4 * (y : Int) + (x : Int) * 4
  if data (pixel + 3) < 255 then
    let acc := fillAll data w h tex_binaryAlphaMin x y
    if acc.nc ≠ 0 then
      let b : ℚ := 1 - (data (pixel + 3) : ℚ) / 255
      let br : ℚ := 1 - b
      let npix : Int := (w : Int) * 4 * (y : Int) + (x : Int) * 4
      let out := out.store npix (fixByte (data pixel) acc.rgb0 acc.nc b br)
      let out := out.store (npix + 1) (fixByte (data (pixel + 1)) acc.rgb1 acc.nc b br)
      out.store (npix + 2) (fixByte (data (pixel + 2)) acc.rgb2 acc.nc b br)
    else
      out
  else
    out

/-- Model of `fiFixTransparentPixels(bitmap)`: the returned bitmap.
`tex_binaryAlphaMin` is the global threshold the routine reads. -/
def fiFixTransparentPixels (bitmap : FIBITMAP) (tex_binaryAlphaMin : Int) : FIBITMAP :=
  if bitmap.bpp ≠ 4 then
    bitmap
  else
    let data := bitmap.bits
    let w := bitmap.width
    let h := bitmap.height
    { bitmap with
      bits :=
        forLoop h
          (fun y out => forLoop w (fun x out => fixPixel data w h tex_binaryAlphaMin x y out) out)
          bitmap.bits }

/-- The loops of `fiFixTransparentPixels` on memory blocks: `data` points to block
0, the raster of `bitmap`, and `out` to block 1, the raster of `filled`. Every
pixel turn reads block 0 and stores through `out`. -/
def fixTransparentBlocks (w h : Nat) (tex_binaryAlphaMin : Int) (H : Blocks) : Blocks :=
  forLoop h
    (fun y H =>
      forLoop w (fun x H => H.set 1 (fixPixel (H 0) w h tex_binaryAlphaMin x y (H 1))) H)
    H

/-! ## Notions used by the specification -/

/-- Byte `c` of the pixel `(x, y)` of a bitmap, addressed by pitch and depth. -/
def pixelByte (b : FIBITMAP) (x y : Int) (c : Int) : Nat :=
  b.bits (y * (b.pitch : Int) + x * (b.bpp : Int) + c)

/-- The `n` bytes of a blob from offset `a` on. -/
def bytesAt (icc : List Nat) (a n : Nat) : List Nat := (icc.drop a).take n

/-- The big-endian 32-bit field at offset `a` of a blob. -/
def be32At (icc : List Nat) (a : Nat) : Nat :=
  icc.getD a 0 * 2 ^ 24 + icc.getD (a + 1) 0 * 2 ^ 16 + icc.getD (a + 2) 0 * 2 ^ 8
    + icc.getD (a + 3) 0

/-- The depth requirement of a mode in the words of the specification:
`COMBINE_RGB`, `COMBINE_ADD`, `COMBINE_MIN`, `COMBINE_MAX` need a target and an
overlay of depth 3 or 4, `COMBINE_ALPHA` needs both of depth 4,
`COMBINE_R_TO_ALPHA` a target of depth 4, `COMBINE_ALPHA_TO_RGB` a target of depth
3 or 4 and an overlay of depth 4. -/
def specDepthRequirement (mode : FREE_IMAGE_COMBINE) (target overlay : Nat) : Prop :=
  match mode with
  | .COMBINE_RGB => (target = 3 ∨ target = 4) ∧ (overlay = 3 ∨ overlay = 4)
  | .COMBINE_ADD => (target = 3 ∨ target = 4) ∧ (overlay = 3 ∨ overlay = 4)
  | .COMBINE_MIN => (target = 3 ∨ target = 4) ∧ (overlay = 3 ∨ overlay = 4)
  | .COMBINE_MAX => (target = 3 ∨ target = 4) ∧ (overlay = 3 ∨ overlay = 4)
  | .COMBINE_ALPHA => target = 4 ∧ overlay = 4
  | .COMBINE_R_TO_ALPHA => target = 4
  | .COMBINE_ALPHA_TO_RGB => (target = 3 ∨ target = 4) ∧ overlay = 4

instance (mode : FREE_IMAGE_COMBINE) (target overlay : Nat) :
    Decidable (specDepthRequirement mode target overlay) := by
  cases mode <;> unfold specDepthRequirement <;> infer_instance

/-- The passes of the convolution in the words of the specification: pass 1
reads the source, every later pass reads the complete output of the pass before
it, and no pass reads the buffer it writes. The value at `n` is the buffer the
`n`-th pass wrote, paired with the buffer the next pass will write over, which for
pass 1 is `out1`, for pass 2 is `out2` and from then on is the buffer written two
passes earlier. -/
def specPasses (pass : Mem → Mem → Mem) (source out1 out2 : Mem) : Nat → Mem × Mem
  | 0 => (source, out1)
  | 1 => (pass source out1, out2)
  | n + 2 =>
    (pass (specPasses pass source out1 out2 (n + 1)).1 (specPasses pass source out1 out2 (n + 1)).2,
      (specPasses pass source out1 out2 (n + 1)).1)

/-- The packed pixel data of a bitmap as `fiGetUnalignedData` presents them: the
raster itself when rows have no padding, else the packed copy made in a block of
content `fresh`. -/
def dataOf (b : FIBITMAP) (fresh : Mem) : Mem :=
  match (fiGetUnalignedData b false fresh).1 with
  | .own => b.bits
  | .heap p => p

/-- The bitmap `temp` holding the packed pixel data `P`: as its raster when rows
have no padding, else copied into its rows by `fiStoreUnalignedData`. -/
def withData (temp : FIBITMAP) (P : Mem) (width height bpp : Nat) : FIBITMAP :=
  if temp.width * temp.bpp = temp.pitch then { temp with bits := P }
  else { temp with bits := fiStoreUnalignedData temp (DataPtr.heap P) width height bpp }

/-- A kernel whose only non-zero weight is `m[k] = 1`. -/
def onlyWeight (k : Nat) : Nat → ℚ := fun i => if i = k then 1 else 0

/-- A packed 3x3 raster of one byte per pixel, rows `10 20 30`, `40 50 60`,
`70 80 90`, followed by one byte `77` that lies past the raster. -/
def raster3x3 : Mem := Mem.ofList [10, 20, 30, 40, 50, 60, 70, 80, 90, 77]

/-- A 4x1 target of depth 3 (pitch 12, no padding). -/
def target4x1 : FIBITMAP :=
  { width := 4, height := 1, bpp := 3, pitch := 12
    bits := Mem.ofList [10, 20, 30, 40, 50, 60, 70, 80, 90, 100, 110, 120] }

/-- A 4x1 overlay of depth 4 whose bytes are all zero. -/
def overlay4x1 : FIBITMAP :=
  { width := 4, height := 1, bpp := 4, pitch := 16, bits := fun _ => 0 }

/-- A 1x1 bitmap of depth 3 (pitch 4) whose three channels hold `v`. -/
def gray1x1 (v : Nat) : FIBITMAP :=
  { width := 1, height := 1, bpp := 3, pitch := 4, bits := Mem.ofList [v, v, v, 0] }

/-- A 2x1 bitmap of depth 4: a transparent pixel `100 50 20 0` next to an opaque
pixel `200 100 40 255`. -/
def edge2x1 : FIBITMAP :=
  { width := 2, height := 1, bpp := 4, pitch := 8
    bits := Mem.ofList [100, 50, 20, 0, 200, 100, 40, 255] }

/-- An allocator for concrete runs: a zeroed bitmap of the requested size whose
pitch is `width * bpp` rounded up to a multiple of 4. -/
def allocZero : Int → Int → Nat → Option FIBITMAP := fun width height bits =>
  some
    { width := width.toNat, height := height.toNat, bpp := bits / 8
      pitch := (width.toNat * (bits / 8) + 3) / 4 * 4, bits := fun _ => 0 }

/-- The four bytes of a big-endian 32-bit field. -/
def be32 (n : Nat) : List Nat := [n / 2 ^ 24 % 256, n / 2 ^ 16 % 256, n / 2 ^ 8 % 256, n % 256]

/-- The first 132 bytes of a profile: zeros, `"acsp"` at 36..39 and the tag count
at 128..131. -/
def iccHeader (count : Nat) : List Nat :=
  List.replicate 36 0 ++ cstr "acsp" ++ List.replicate 88 0 ++ be32 count

/-- A profile with one tag-table entry `"desc"` whose region starts right after
the table (offset 144), has the stated length field, and holds a 12-byte header
followed by `tail`. -/
def iccWithDesc (len : Nat) (tail : List Nat) : List Nat :=
  iccHeader 1 ++ cstr "desc" ++ be32 144 ++ be32 len ++ List.replicate 12 0 ++ tail

/-- An allocator for concrete runs that takes the absolute value of the
requested sizes and returns no bitmap when one of them is zero, as the
allocator of FreeImage does; the bitmap is zeroed, its pitch a multiple of 4. -/
def allocAbs : Int → Int → Nat → Option FIBITMAP := fun width height bits =>
  if width.natAbs = 0 ∨ height.natAbs = 0 then none
  else
    some
      { width := width.natAbs, height := height.natAbs, bpp := bits / 8
        pitch := (width.natAbs * (bits / 8) + 3) / 4 * 4, bits := fun _ => 0 }

/-- A 4x3 bitmap of depth 1 (pitch 4, rows without padding) whose twelve pixels
hold 160; the bytes of memory around the raster are zero. -/
def uniform4x3 : FIBITMAP :=
  { width := 4, height := 3, bpp := 1, pitch := 4
    bits := fun i => if 0 ≤ i ∧ i < 12 then 160 else 0 }

/-- The identity kernel with scale 2: `m[4] = 2`, the other weights 0. -/
def identityKernel2 : Nat → ℚ := fun k => if k = 4 then 2 else 0

/-- The kernel `fiBlur` builds: `1 2 1 / 2 4 2 / 1 2 1`. -/
def blurKernel : Nat → ℚ := fun i => ([1, 2, 1, 2, 4, 2, 1, 2, 1] : List ℚ).getD i 0

/-- A 1x1 overlay of depth 4 whose bytes are all zero. -/
def overlay1x1 : FIBITMAP :=
  { width := 1, height := 1, bpp := 4, pitch := 4, bits := fun _ => 0 }

/-- A 144-byte profile that starts with the text `"sRGB IEC61966-2.1"` and a NUL,
has `"acsp"` at 36..39 and one table entry `"desc"` whose offset field is
`0xFFFFFFF4` and whose length field is 30. -/
def iccWrapped : List Nat :=
  cstr "sRGB IEC61966-2.1" ++ List.replicate 19 0 ++ cstr "acsp" ++ List.replicate 88 0
    ++ be32 1 ++ cstr "desc" ++ be32 0xFFFFFFF4 ++ be32 30

theorem forLoop_succ {σ : Type} (n : Nat) (body : Nat → σ → σ) (s : σ) :
    forLoop (n + 1) body s = body n (forLoop n body s) := rfl

/-- A loop each of whose turns maps the state `s` to itself ends in `s`. -/
theorem forLoop_fix {σ : Type} (n : Nat) (body : Nat → σ → σ) (s : σ)
    (h : ∀ j, j < n → body j s = s) : forLoop n body s = s := by
  induction n with
  | zero => rfl
  | succ n ih =>
    rw [forLoop_succ, ih (fun j hj => h j (Nat.lt_succ_of_lt hj))]
    exact h n (Nat.lt_succ_self n)

/-- Storing at an address the byte it holds changes nothing. -/
theorem store_self (m : Mem) (a : Int) : m.store a (m a) = m := by
  funext i
  unfold Mem.store
  split
  · rename_i h; rw [h]
  · rfl

/-- A loop none of whose turns writes the address `a` leaves it alone. -/
theorem forLoop_frame (body : Nat → Mem → Mem) (a : Int) (n : Nat) (m : Mem)
    (h : ∀ j, j < n → ∀ m', body j m' a = m' a) : forLoop n body m a = m a := by
  induction n with
  | zero => rfl
  | succ n ih =>
    rw [forLoop_succ, h n (Nat.lt_succ_self n)]
    exact ih (fun j hj => h j (Nat.lt_succ_of_lt hj))

/-- When only turn `j` writes the address `a`, the loop leaves there what turn
`j` wrote. -/
theorem forLoop_at (body : Nat → Mem → Mem) (a : Int) (n j : Nat) (m : Mem) (hj : j < n)
    (h : ∀ k, k < n → k ≠ j → ∀ m', body k m' a = m' a) :
    forLoop n body m a = body j (forLoop j body m) a := by
  induction n with
  | zero => omega
  | succ n ih =>
    rw [forLoop_succ]
    by_cases hjn : j = n
    · subst hjn; rfl
    · rw [h n (Nat.lt_succ_self n) (fun e => hjn e.symm)]
      exact ih (by omega) (fun k hk hkj => h k (Nat.lt_succ_of_lt hk) hkj)

theorem memcpy_apply (dst : Mem) (d : Int) (src : Mem) (s : Int) (n : Nat) (i : Int) :
    memcpy dst d src s n i = if d ≤ i ∧ i < d + n then src (s + (i - d)) else dst i := rfl

theorem row_step_le (y h : Nat) (wb : Nat) (hy : y < h) :
    ((y : Int) + 1) * (wb : Int) ≤ (h : Int) * (wb : Int) := by
  have : y + 1 ≤ h := hy
  have h2 : (y + 1) * wb ≤ h * wb := Nat.mul_le_mul_right wb this
  exact_mod_cast h2

/-- The packed copy made by `fiGetUnalignedData` holds, in row `y` at byte `k`,
the byte `k` of row `y` of the raster. -/
theorem packed_copy_at (bits fresh : Mem) (wb pitch : Nat) (h y k : Nat) (hy : y < h)
    (hk : k < wb) :
    forLoop h
        (fun y dataptr => memcpy dataptr ((y : Int) * (wb : Int)) bits ((y : Int) * (pitch : Int)) wb)
        fresh ((y : Int) * (wb : Int) + (k : Int))
      = bits ((y : Int) * (pitch : Int) + (k : Int)) := by
  induction h with
  | zero => omega
  | succ h ih =>
    rw [forLoop_succ, memcpy_apply]
    by_cases hyh : y = h
    · subst hyh
      have hk2 : (k : Int) < (wb : Int) := by exact_mod_cast hk
      rw [if_pos (by constructor <;> omega)]
      congr 1; ring
    · have hlt : y < h := by omega
      have := row_step_le y h wb hlt
      have hk2 : (k : Int) < (wb : Int) := by exact_mod_cast hk
      rw [if_neg (by
        intro hc
        have h1 := hc.1
        nlinarith)]
      exact ih hlt

theorem mul_step_le (a b s : Nat) (h : a < b) :
    (a : Int) * (s : Int) + (s : Int) ≤ (b : Int) * (s : Int) := by
  have h2 : (a + 1) * s ≤ b * s := Nat.mul_le_mul_right s h
  have h3 : ((a : Int) + 1) * (s : Int) ≤ (b : Int) * (s : Int) := by exact_mod_cast h2
  linarith

/-- Two nested loops over a grid of cells, `k` bytes at `y*op + j*s` for the cell
`(y, j)`, each turn writing only inside its own cell: at an address of the cell
`(y, x)` the loops leave what the turn `(y, x)` wrote, and that turn ran on a
memory in which the cell still had its initial content. -/
theorem grid_at (pix : Nat → Nat → Mem → Mem) (op s k w h : Nat) (hk : k ≤ s)
    (hrow : w * s ≤ op)
    (hframe : ∀ (y j : Nat) (out : Mem) (a : Int),
      (a < (y : Int) * (op : Int) + (j : Int) * (s : Int)
        ∨ (y : Int) * (op : Int) + (j : Int) * (s : Int) + (k : Int) ≤ a) →
      pix y j out a = out a)
    (x y : Nat) (hx : x < w) (hy : y < h) (m : Mem) :
    ∃ M : Mem,
      (∀ a : Int, (y : Int) * (op : Int) + (x : Int) * (s : Int) ≤ a →
        a < (y : Int) * (op : Int) + (x : Int) * (s : Int) + (k : Int) → M a = m a)
      ∧ ∀ a : Int, (y : Int) * (op : Int) + (x : Int) * (s : Int) ≤ a →
        a < (y : Int) * (op : Int) + (x : Int) * (s : Int) + (k : Int) →
        forLoop h (fun y out => forLoop w (fun j out => pix y j out) out) m a = pix y x M a := by
  have hkI : (k : Int) ≤ (s : Int) := by exact_mod_cast hk
  have hrowI : (w : Int) * (s : Int) ≤ (op : Int) := by exact_mod_cast hrow
  have hxw := mul_step_le x w s hx
  have hx0 : (0 : Int) ≤ (x : Int) * (s : Int) := by positivity
  -- a row other than `y` does not write the cell
  have hrowframe : ∀ (y2 : Nat), y2 ≠ y → ∀ (n : Nat), n ≤ w → ∀ (m2 : Mem) (a : Int),
      (y : Int) * (op : Int) + (x : Int) * (s : Int) ≤ a →
      a < (y : Int) * (op : Int) + (x : Int) * (s : Int) + (k : Int) →
      forLoop n (fun j out => pix y2 j out) m2 a = m2 a := by
    intro y2 hy2 n hn m2 a ha1 ha2
    apply forLoop_frame
    intro j hj m3
    apply hframe
    have hjw := mul_step_le j w s (by omega)
    have hj0 : (0 : Int) ≤ (j : Int) * (s : Int) := by positivity
    rcases Nat.lt_or_gt_of_ne hy2 with hlt | hgt
    · have := mul_step_le y2 y op hlt
      right; omega
    · have := mul_step_le y y2 op hgt
      left; omega
  -- in row `y`, a cell other than `x` does not write the cell
  have hcellframe : ∀ (j : Nat), j ≠ x → ∀ (m2 : Mem) (a : Int),
      (y : Int) * (op : Int) + (x : Int) * (s : Int) ≤ a →
      a < (y : Int) * (op : Int) + (x : Int) * (s : Int) + (k : Int) →
      pix y j m2 a = m2 a := by
    intro j hj m2 a ha1 ha2
    apply hframe
    rcases Nat.lt_or_gt_of_ne hj with hlt | hgt
    · have := mul_step_le j x s hlt
      right; omega
    · have := mul_step_le x j s hgt
      left; omega
  refine ⟨forLoop x (fun j out => pix y j out)
    (forLoop y (fun y out => forLoop w (fun j out => pix y j out) out) m), ?_, ?_⟩
  · intro a ha1 ha2
    rw [forLoop_frame _ a x _ (fun j hj m2 => hcellframe j (by omega) m2 a ha1 ha2)]
    exact forLoop_frame _ a y m
      (fun y2 hy2 m2 => hrowframe y2 (by omega) w (le_refl _) m2 a ha1 ha2)
  · intro a ha1 ha2
    rw [forLoop_at _ a h y m hy
      (fun y2 _ hy2 m2 => hrowframe y2 hy2 w (le_refl _) m2 a ha1 ha2)]
    exact forLoop_at _ a w x _ hx (fun j _ hj m2 => hcellframe j hj m2 a ha1 ha2)

theorem store_apply (m : Mem) (a : Int) (v : Nat) (i : Int) :
    m.store a v i = if i = a then v else m i := rfl

/-- Copying back an unmodified packed copy rewrites every byte with itself. -/
theorem store_packed_copy (bits fresh : Mem) (wb pitch : Nat) (h n : Nat) (hn : n ≤ h) :
    forLoop n
        (fun y data =>
          memcpy data ((y : Int) * (pitch : Int))
            (forLoop h
              (fun y dataptr =>
                memcpy dataptr ((y : Int) * (wb : Int)) bits ((y : Int) * (pitch : Int)) wb)
              fresh)
            ((y : Int) * (wb : Int)) wb)
        bits
      = bits := by
  induction n with
  | zero => rfl
  | succ n ih =>
    rw [forLoop_succ, ih (by omega)]
    funext i
    rw [memcpy_apply]
    split
    · rename_i hi
      have h0 : 0 ≤ i - (n : Int) * (pitch : Int) := by omega
      have hk : (i - (n : Int) * (pitch : Int)).toNat < wb := by omega
      have e : ((i - (n : Int) * (pitch : Int)).toNat : Int) = i - (n : Int) * (pitch : Int) :=
        Int.toNat_of_nonneg h0
      have := packed_copy_at bits fresh wb pitch h n _ (by omega) hk
      rw [e] at this
      rw [this]
      congr 1; ring
    · rfl

/-- C4. Round trip of `fiGetUnalignedData` (without `force_allocate`) followed by
`fiStoreUnalignedData` with the bitmap's own width, height and depth, the packed
bytes not being modified in between: every byte of the raster, pixel bytes and
padding alike, keeps its value. When the pitch exceeds `width * bpp` the round
trip goes through a separate packed block and `data_allocated` is true; when the
pitch equals `width * bpp` no block is made, `data_allocated` is false and the
store is the early return. -/
theorem fiStoreUnalignedData_fiGetUnalignedData (bitmap : FIBITMAP) (fresh : Mem) :
    (∀ i : Int,
        fiStoreUnalignedData bitmap (fiGetUnalignedData bitmap false fresh).1
          bitmap.width bitmap.height bitmap.bpp i = bitmap.bits i)
    ∧ (bitmap.width * bitmap.bpp < bitmap.pitch →
        (fiGetUnalignedData bitmap false fresh).2 = true
        ∧ ∃ p, (fiGetUnalignedData bitmap false fresh).1 = DataPtr.heap p)
    ∧ (bitmap.pitch = bitmap.width * bitmap.bpp →
        fiGetUnalignedData bitmap false fresh = (DataPtr.own, false)) := by
  refine ⟨?_, ?_, ?_⟩
  · intro i
    by_cases hp : bitmap.width * bitmap.bpp = bitmap.pitch
    · simp [fiGetUnalignedData, hp, fiStoreUnalignedData]
    · simp only [fiGetUnalignedData, hp, false_and, if_false, fiStoreUnalignedData]
      rw [store_packed_copy bitmap.bits fresh (bitmap.width * bitmap.bpp) bitmap.pitch
        bitmap.height bitmap.height (le_refl _)]
  · intro hlt
    have hp : ¬ bitmap.width * bitmap.bpp = bitmap.pitch := by omega
    simp [fiGetUnalignedData, hp]
  · intro he
    simp [fiGetUnalignedData, he]

/-! ## Convolution Engine: the pass at concrete inputs -/

/-- C1 (the code at the failing input). On the 3x3 raster with the kernel whose
only weight is `m[8] = 1` (scale 1, bias 0), one pass gives the interior pixel
(1,1), at offset 4, the value of the bottom-left pixel (0,2) (offset 6, value 70),
not that of the bottom-right pixel (2,2) (offset 8, value 90): `ofs[8]` is
computed with `x-1`. -/
theorem filterPass_interior_m8 (out : Mem) :
    filterPass 3 3 1 (onlyWeight 8) 1 0 raster3x3 out 4 = 70
    ∧ raster3x3 6 = 70 ∧ raster3x3 8 = 90 := by
  refine ⟨?_, by decide, by decide⟩
  simp [filterPass, filterInterior, filterCorners, filterFirstRow, filterLastRow, filterSide,
    forLoop, Mem.store]
  simp [kernelSample, onlyWeight, raster3x3, Mem.ofList, toUInt32, toInt32, truncQ, castByte]

/-- C7 (the code at the failing input). On the 3x3 raster (scale 1, bias 0):
with only `m[8] = 1` the top-row pixel (1,0) gets pixel (0,1) (value 40) and the
bottom-row pixel (1,2) gets pixel (0,2) (value 70), where the neighbour `k = 8`
at its natural or clamped position is (2,1) (value 60), respectively (2,2)
(value 90); with only `m[1] = 1` the left-column pixel (0,1) gets pixel (1,0)
(value 20), not pixel (0,0) (value 10) above it; with only `m[7] = 1` the
right-column pixel (2,1) gets the byte at offset 9, one past the nine bytes of
the raster (value 77), not pixel (2,2) below it. -/
theorem filterPass_border_samples (out : Mem) :
    filterPass 3 3 1 (onlyWeight 8) 1 0 raster3x3 out 1 = 40
    ∧ filterPass 3 3 1 (onlyWeight 8) 1 0 raster3x3 out 7 = 70
    ∧ filterPass 3 3 1 (onlyWeight 1) 1 0 raster3x3 out 3 = 20
    ∧ filterPass 3 3 1 (onlyWeight 7) 1 0 raster3x3 out 5 = 77 := by
  refine ⟨?_, ?_, ?_, ?_⟩ <;>
  · simp [filterPass, filterInterior, filterCorners, filterFirstRow, filterLastRow, filterSide,
      forLoop, Mem.store]
    simp [kernelSample, onlyWeight, raster3x3, Mem.ofList, toUInt32, toInt32, truncQ, castByte]

/-! ## Compositor at concrete inputs -/

/-- C8 (the code at the failing input). Mode `COMBINE_ALPHA_TO_RGB` with blend 0
on a 4x1 target of depth 3 and an all-zero overlay of depth 4: every target byte
should keep its value, but the store `out[3] = 255` of each pixel lands on
channel 0 of the next pixel (offsets 3, 6, 9 end as 255, from 40, 70, 100), and
that of the last pixel lands on offset 12, past the 12 bytes of the raster. -/
theorem fiCombine_alpha_to_rgb_depth3 :
    ∃ out, fiCombine target4x1 overlay4x1 .COMBINE_ALPHA_TO_RGB 0 = some out
      ∧ out 3 = 255 ∧ target4x1.bits 3 = 40
      ∧ out 6 = 255 ∧ out 9 = 255
      ∧ out 12 = 255 ∧ target4x1.bits 12 = 0
      ∧ target4x1.pitch * target4x1.height = 12 := by
  refine ⟨_, rfl, ?_, by decide, ?_, ?_, ?_, by decide, by decide⟩ <;>
  · simp [target4x1, overlay4x1, combineRow, depthsAccepted, combinePixel, forLoop, Mem.store]
    try simp [blendByte, castByte, Mem.ofList]
    try norm_num
    try rfl

/-- In the modes that write channels 0..2, a turn writes no byte outside them. -/
theorem combinePixel_frame3 (mode : FREE_IMAGE_COMBINE)
    (hmode : mode = .COMBINE_RGB ∨ mode = .COMBINE_ADD ∨ mode = .COMBINE_MIN
      ∨ mode = .COMBINE_MAX)
    (rb blend : ℚ) (inp : Mem) (o i : Int) (out : Mem) (a : Int) (ha : a < o ∨ o + 3 ≤ a) :
    combinePixel mode rb blend inp o i out a = out a := by
  have h0 : a ≠ o := by omega
  have h1 : a ≠ o + 1 := by omega
  have h2 : a ≠ o + 2 := by omega
  rcases hmode with h | h | h | h <;> subst h <;>
    simp [combinePixel, store_apply, h0, h1, h2]

theorem combinePixel_add_at (rb blend : ℚ) (inp : Mem) (o i : Int) (out : Mem) (c : Nat)
    (hc : c < 3) :
    combinePixel .COMBINE_ADD rb blend inp o i out (o + (c : Int))
      = addByte (out (o + (c : Int))) (inp (i + (c : Int))) blend := by
  interval_cases c <;> simp [combinePixel, store_apply]

/-- The value `fiCombine` leaves in channel `c < 3` of pixel `(x, y)` in a mode
that writes channels 0..2: the result of that pixel's own turn on the initial
bytes of the pixel. -/
theorem fiCombine_at3 (source combine : FIBITMAP) (mode : FREE_IMAGE_COMBINE) (blend : ℚ)
    (hmode : mode = .COMBINE_RGB ∨ mode = .COMBINE_ADD ∨ mode = .COMBINE_MIN
      ∨ mode = .COMBINE_MAX)
    (hs : source.bpp = 3 ∨ source.bpp = 4) (hc : combine.bpp = 3 ∨ combine.bpp = 4)
    (hw : source.width = combine.width) (hh : source.height = combine.height)
    (hpitch : source.width * source.bpp ≤ source.pitch)
    (x y : Nat) (hx : x < source.width) (hy : y < source.height) :
    ∃ out M : Mem, fiCombine source combine mode blend = some out
      ∧ (∀ c : Nat, c < 3 →
          M ((y : Int) * (source.pitch : Int) + (x : Int) * (source.bpp : Int) + (c : Int))
            = source.bits
              ((y : Int) * (source.pitch : Int) + (x : Int) * (source.bpp : Int) + (c : Int)))
      ∧ (∀ c : Nat, c < 3 →
          out ((y : Int) * (source.pitch : Int) + (x : Int) * (source.bpp : Int) + (c : Int))
            = combinePixel mode (1 - blend) blend combine.bits
                ((y : Int) * (source.pitch : Int) + (x : Int) * (source.bpp : Int))
                ((y : Int) * (combine.pitch : Int) + (x : Int) * (combine.bpp : Int)) M
                ((y : Int) * (source.pitch : Int) + (x : Int) * (source.bpp : Int) + (c : Int))) := by
  have hacc : depthsAccepted mode source.bpp combine.bpp = true := by
    rcases hmode with h | h | h | h <;> subst h <;>
      rcases hs with hs | hs <;> rcases hc with hc | hc <;> simp [depthsAccepted, hs, hc]
  obtain ⟨M, hM1, hM2⟩ := grid_at
    (fun y j out => combinePixel mode (1 - blend) blend combine.bits
      ((y : Int) * (source.pitch : Int) + (j : Int) * (source.bpp : Int))
      ((y : Int) * (combine.pitch : Int) + (j : Int) * (combine.bpp : Int)) out)
    source.pitch source.bpp 3 source.width source.height (by omega) hpitch
    (fun y j out a ha => combinePixel_frame3 mode hmode _ _ _ _ _ out a (by omega))
    x y hx hy source.bits
  refine ⟨forLoop source.height
      (fun y out_data =>
        combineRow mode source.bpp combine.bpp source.width (1 - blend) blend combine.bits
          ((y : Int) * (source.pitch : Int)) ((y : Int) * (combine.pitch : Int)) out_data)
      source.bits, M, ?_, ?_, ?_⟩
  · unfold fiCombine
    rw [if_neg (by omega), if_neg (by omega), if_neg (by omega)]
  · intro c hc3
    exact hM1 _ (by omega) (by omega)
  · intro c hc3
    simp only [combineRow, hacc, if_true]
    exact hM2 _ (by omega) (by omega)


set_option maxRecDepth 20000 in
/-- C10 (the code at the failing inputs). The routine accesses memory outside
the blob on a profile of 20 bytes (it reads `icc[36]`), on a profile that ends
right after a header announcing one tag (it reads the signature at offsets
132..135 of a 132-byte blob, the test `tag > icc_end` letting `tag = icc_end`
through), and on a profile whose `"desc"` entry has length 0 (the count
`tag_size - 12` of `strncpy` is negative). -/
theorem ICCProfile_Test_sRGB_out_of_bounds (tagdata : Nat → Nat) :
    ICCProfile_Test_sRGB (some (List.replicate 20 0)) tagdata = none
    ∧ ICCProfile_Test_sRGB (some (iccHeader 1)) tagdata = none
    ∧ (iccHeader 1).length = 132
    ∧ ICCProfile_Test_sRGB (some (iccWithDesc 0 [])) tagdata = none :=
  ⟨rfl, rfl, rfl, rfl⟩


/-! ## Resampler -/

/-- The nearest source coordinate `(int)(x * ((double)width / new_width))` is the
integer quotient of `x * width` by `new_width`. -/
theorem nearest_coord (x width : Nat) (new_width : Int) (hn : 1 ≤ new_width) :
    truncQ ((x : ℚ) * ((width : ℚ) / (new_width : ℚ)))
      = ((x : Int) * (width : Int)) / new_width := by
  have hq : (0 : ℚ) < (new_width : ℚ) := by exact_mod_cast (by omega : (0 : Int) < new_width)
  have h0 : (0 : ℚ) ≤ (x : ℚ) * ((width : ℚ) / (new_width : ℚ)) := by positivity
  unfold truncQ
  rw [if_pos h0]
  obtain ⟨n, rfl⟩ : ∃ n : Nat, new_width = (n : Int) := ⟨new_width.toNat, by omega⟩
  have := Rat.floor_intCast_div_natCast ((x : Int) * (width : Int)) n
  rw [← this]
  congr 1
  push_cast
  ring

/-- The byte the resampler leaves in channel `d` of the pixel `(x, y)` of its result,
for sizes of at least 1 and an allocator that returns a bitmap of the requested
size. -/
theorem fiRescaleNearestNeighbor_at (FreeImage_Allocate : Int → Int → Nat → Option FIBITMAP)
    (bitmap scaled : FIBITMAP) (new_width new_height : Int)
    (hnw : 1 ≤ new_width) (hnh : 1 ≤ new_height)
    (halloc : FreeImage_Allocate new_width new_height (bitmap.bpp * 8) = some scaled)
    (hsw : (scaled.width : Int) = new_width) (hsh : (scaled.height : Int) = new_height)
    (hsb : scaled.bpp = bitmap.bpp) (hsp : scaled.width * scaled.bpp ≤ scaled.pitch)
    (x y d : Nat) (hx : (x : Int) < new_width) (hy : (y : Int) < new_height)
    (hd : d < bitmap.bpp) :
    ∃ r : FIBITMAP,
      fiRescaleNearestNeighbor FreeImage_Allocate bitmap new_width new_height = some r
      ∧ (r.width : Int) = new_width ∧ (r.height : Int) = new_height ∧ r.bpp = bitmap.bpp
      ∧ r.bits ((y : Int) * (r.pitch : Int) + ((x : Int) * (r.bpp : Int) + (d : Int)))
        = bitmap.bits
            ((((y : Int) * (bitmap.height : Int)) / new_height) * (bitmap.pitch : Int)
              + ((((x : Int) * (bitmap.width : Int)) / new_width) * (bitmap.bpp : Int)
                + (d : Int))) := by
  have hwn : new_width.toNat = scaled.width := by omega
  have hhn : new_height.toNat = scaled.height := by omega
  -- the turn of the two outer loops for the destination pixel `(y, x)`
  let pix : Nat → Nat → Mem → Mem := fun y x dst_bits =>
    forLoop bitmap.bpp
      (fun d dst_bits =>
        dst_bits.store ((y : Int) * (scaled.pitch : Int) + ((x : Int) * (bitmap.bpp : Int) + (d : Int)))
          (bitmap.bits
            (truncQ ((y : ℚ) * ((bitmap.height : ℚ) / (new_height : ℚ))) * (bitmap.pitch : Int)
              + (truncQ ((x : ℚ) * ((bitmap.width : ℚ) / (new_width : ℚ))) * (bitmap.bpp : Int)
                + (d : Int)))))
      dst_bits
  have hframe : ∀ (y j : Nat) (out : Mem) (a : Int),
      (a < (y : Int) * (scaled.pitch : Int) + (j : Int) * (bitmap.bpp : Int)
        ∨ (y : Int) * (scaled.pitch : Int) + (j : Int) * (bitmap.bpp : Int) + (bitmap.bpp : Int) ≤ a) →
      pix y j out a = out a := by
    intro y j out a ha
    apply forLoop_frame
    intro d hd m
    rw [store_apply, if_neg]
    have : (d : Int) < (bitmap.bpp : Int) := by exact_mod_cast hd
    omega
  obtain ⟨M, _, hM2⟩ := grid_at pix scaled.pitch bitmap.bpp bitmap.bpp scaled.width
    scaled.height (le_refl _) (by rw [← hsb]; exact hsp) hframe x y (by omega) (by omega)
    scaled.bits
  have hdI : (d : Int) < (bitmap.bpp : Int) := by exact_mod_cast hd
  refine ⟨{ scaled with
      bits := (forLoop scaled.height
        (fun y out => forLoop scaled.width (fun j out => pix y j out) out) scaled.bits) },
    ?_, hsw, hsh, hsb, ?_⟩
  · simp only [fiRescaleNearestNeighbor, fiCreate, halloc, hwn, hhn]
  · show forLoop scaled.height
      (fun y out => forLoop scaled.width (fun j out => pix y j out) out) scaled.bits
      ((y : Int) * (scaled.pitch : Int) + ((x : Int) * (scaled.bpp : Int) + (d : Int))) = _
    rw [hsb, ← add_assoc, hM2 _ (by omega) (by omega)]
    show forLoop bitmap.bpp _ M _ = _
    rw [forLoop_at _ _ bitmap.bpp d M hd]
    · rw [store_apply, if_pos (by ring), nearest_coord y _ _ hnh, nearest_coord x _ _ hnw]
    · intro k _ hkd m
      rw [store_apply, if_neg]
      omega

theorem fixPixel_apply (data : Mem) (w h : Nat) (T : Int) (x y : Nat) (out : Mem) (a : Int) :
    fixPixel data w h T x y out a
      = if data ((w : Int) * 4 * (y : Int) + (x : Int) * 4 + 3) < 255
            ∧ (fillAll data w h T x y).nc ≠ 0 then
          if a = (w : Int) * 4 * (y : Int) + (x : Int) * 4 + 2 then
            fixByte (data ((w : Int) * 4 * (y : Int) + (x : Int) * 4 + 2))
              (fillAll data w h T x y).rgb2 (fillAll data w h T x y).nc
              (1 - (data ((w : Int) * 4 * (y : Int) + (x : Int) * 4 + 3) : ℚ) / 255)
              (1 - (1 - (data ((w : Int) * 4 * (y : Int) + (x : Int) * 4 + 3) : ℚ) / 255))
          else if a = (w : Int) * 4 * (y : Int) + (x : Int) * 4 + 1 then
            fixByte (data ((w : Int) * 4 * (y : Int) + (x : Int) * 4 + 1))
              (fillAll data w h T x y).rgb1 (fillAll data w h T x y).nc
              (1 - (data ((w : Int) * 4 * (y : Int) + (x : Int) * 4 + 3) : ℚ) / 255)
              (1 - (1 - (data ((w : Int) * 4 * (y : Int) + (x : Int) * 4 + 3) : ℚ) / 255))
          else if a = (w : Int) * 4 * (y : Int) + (x : Int) * 4 then
            fixByte (data ((w : Int) * 4 * (y : Int) + (x : Int) * 4))
              (fillAll data w h T x y).rgb0 (fillAll data w h T x y).nc
              (1 - (data ((w : Int) * 4 * (y : Int) + (x : Int) * 4 + 3) : ℚ) / 255)
              (1 - (1 - (data ((w : Int) * 4 * (y : Int) + (x : Int) * 4 + 3) : ℚ) / 255))
          else out a
        else out a := by
  unfold fixPixel
  by_cases h1 : data ((w : Int) * 4 * (y : Int) + (x : Int) * 4 + 3) < 255
  · by_cases h2 : (fillAll data w h T x y).nc ≠ 0
    · simp only [h1, h2, if_true, and_self, store_apply, ne_eq, not_false_eq_true]
    · simp only [h1, h2, if_true, if_false, and_false]
  · simp only [h1, if_false, false_and]

/-- The output of `fiFixTransparentPixels` at byte `c` of an in-image pixel is
what that pixel's own turn leaves there, starting from the source bytes. -/
theorem fiFixTransparentPixels_at (bitmap : FIBITMAP) (T : Int)
    (hbpp : bitmap.bpp = 4) (hpitch : bitmap.pitch = bitmap.width * 4)
    (x y : Nat) (hx : x < bitmap.width) (hy : y < bitmap.height) :
    ∃ M : Mem, ∀ c : Int, 0 ≤ c → c < 4 →
      M ((bitmap.width : Int) * 4 * (y : Int) + (x : Int) * 4 + c)
          = bitmap.bits ((bitmap.width : Int) * 4 * (y : Int) + (x : Int) * 4 + c)
      ∧ pixelByte bitmap x y c
          = bitmap.bits ((bitmap.width : Int) * 4 * (y : Int) + (x : Int) * 4 + c)
      ∧ pixelByte (fiFixTransparentPixels bitmap T) x y c
          = fixPixel bitmap.bits bitmap.width bitmap.height T x y M
              ((bitmap.width : Int) * 4 * (y : Int) + (x : Int) * 4 + c) := by
  have hbase : (y : Int) * ((bitmap.width * 4 : Nat) : Int) + (x : Int) * ((4 : Nat) : Int)
      = (bitmap.width : Int) * 4 * (y : Int) + (x : Int) * 4 := by
    push_cast; ring
  have hframe : ∀ (y j : Nat) (out : Mem) (a : Int),
      (a < (y : Int) * ((bitmap.width * 4 : Nat) : Int) + (j : Int) * ((4 : Nat) : Int)
        ∨ (y : Int) * ((bitmap.width * 4 : Nat) : Int) + (j : Int) * ((4 : Nat) : Int)
            + ((4 : Nat) : Int) ≤ a) →
      fixPixel bitmap.bits bitmap.width bitmap.height T j y out a = out a := by
    intro y j out a ha
    have e : (y : Int) * ((bitmap.width * 4 : Nat) : Int) + (j : Int) * ((4 : Nat) : Int)
        = (bitmap.width : Int) * 4 * (y : Int) + (j : Int) * 4 := by
      push_cast; ring
    rw [e] at ha
    rw [fixPixel_apply]
    generalize (bitmap.width : Int) * 4 * (y : Int) + (j : Int) * 4 = base at ha
    have h0 : a ≠ base := by omega
    have h1 : a ≠ base + 1 := by omega
    have h2 : a ≠ base + 2 := by omega
    simp only [h0, h1, h2, if_false, ite_self]
  obtain ⟨M, hM1, hM2⟩ := grid_at
    (fun y j out => fixPixel bitmap.bits bitmap.width bitmap.height T j y out)
    (bitmap.width * 4) 4 4 bitmap.width bitmap.height (le_refl _) (le_refl _) hframe
    x y hx hy bitmap.bits
  rw [hbase] at hM1 hM2
  refine ⟨M, fun c hc0 hc => ⟨hM1 _ (by omega) (by omega), ?_, ?_⟩⟩
  · unfold pixelByte
    rw [hbpp, hpitch, hbase]
  · have hres : pixelByte (fiFixTransparentPixels bitmap T) x y c
        = forLoop bitmap.height
            (fun y out => forLoop bitmap.width
              (fun j out => fixPixel bitmap.bits bitmap.width bitmap.height T j y out) out)
            bitmap.bits ((bitmap.width : Int) * 4 * (y : Int) + (x : Int) * 4 + c) := by
      unfold pixelByte fiFixTransparentPixels
      rw [if_neg (by omega)]
      simp only [hbpp, hpitch, hbase]
    rw [hres]
    exact hM2 _ (by omega) (by omega)


theorem readIcc_eq (icc : List Nat) (a : Nat) (ha : a < icc.length) :
    readIcc icc (a : Int) = some (icc.getD a 0) := by
  unfold readIcc
  rw [if_pos (by omega), Int.toNat_ofNat, List.getD_eq_getElem?_getD,
    List.getElem?_eq_getElem ha]
  rfl

theorem wrapInt_eq (z : Int) (h0 : 0 ≤ z) (h1 : z < 2 ^ 31) : wrapInt z = z := by
  unfold wrapInt
  omega

theorem readBE32_eq (icc : List Nat) (a : Nat) (ha : a + 3 < icc.length)
    (hv : be32At icc a < 2 ^ 31) :
    readBE32 icc (a : Int) = some (be32At icc a : Int) := by
  unfold readBE32
  have e1 : (a : Int) + 1 = ((a + 1 : Nat) : Int) := by push_cast; ring
  have e2 : (a : Int) + 2 = ((a + 2 : Nat) : Int) := by push_cast; ring
  have e3 : (a : Int) + 3 = ((a + 3 : Nat) : Int) := by push_cast; ring
  rw [e1, e2, e3, readIcc_eq icc a (by omega), readIcc_eq icc (a + 1) (by omega),
    readIcc_eq icc (a + 2) (by omega), readIcc_eq icc (a + 3) (by omega)]
  simp only [Option.bind_eq_bind, Option.some_bind, Option.pure_def]
  have hz : ((icc.getD a 0 : Int) * 0x1000000 + (icc.getD (a + 1) 0 : Int) * 0x10000
      + (icc.getD (a + 2) 0 : Int) * 0x100 + (icc.getD (a + 3) 0 : Int))
      = (be32At icc a : Int) := by
    unfold be32At
    push_cast
    ring
  rw [hz, wrapInt_eq _ (by positivity) (by exact_mod_cast hv)]

theorem bytesAt_succ (icc : List Nat) (a n : Nat) (ha : a < icc.length) :
    bytesAt icc a (n + 1) = icc.getD a 0 :: bytesAt icc (a + 1) n := by
  unfold bytesAt
  rw [List.drop_eq_getElem_cons ha, List.take_succ_cons, List.getD_eq_getElem _ _ ha]

theorem bytesAt_four (icc : List Nat) (a : Nat) (ha : a + 3 < icc.length) :
    bytesAt icc a 4
      = [icc.getD a 0, icc.getD (a + 1) 0, icc.getD (a + 2) 0, icc.getD (a + 3) 0] := by
  rw [bytesAt_succ icc a 3 (by omega), bytesAt_succ icc (a + 1) 2 (by omega),
    bytesAt_succ icc (a + 2) 1 (by omega), bytesAt_succ icc (a + 3) 0 (by omega)]
  simp [bytesAt]

theorem isDescTag_eq (icc : List Nat) (a : Nat) (ha : a + 3 < icc.length) :
    isDescTag icc (a : Int) = some (decide (bytesAt icc a 4 = cstr "desc")) := by
  unfold isDescTag
  have e1 : (a : Int) + 1 = ((a + 1 : Nat) : Int) := by push_cast; ring
  have e2 : (a : Int) + 2 = ((a + 2 : Nat) : Int) := by push_cast; ring
  have e3 : (a : Int) + 3 = ((a + 3 : Nat) : Int) := by push_cast; ring
  rw [e1, e2, e3, readIcc_eq icc a (by omega), readIcc_eq icc (a + 1) (by omega),
    readIcc_eq icc (a + 2) (by omega), readIcc_eq icc (a + 3) (by omega), bytesAt_four icc a ha]
  simp only [Option.bind_eq_bind, Option.some_bind, Option.pure_def]
  congr 1
  rw [Bool.eq_iff_iff]
  simp


/-- The `"desc"` branch once its two fields are read. -/
theorem descTag_of_fields (icc : List Nat) (tagdata : Nat → Nat) (tag tag_ofs tag_size : Int)
    (h4 : readBE32 icc (tag + 4) = some tag_ofs) (h8 : readBE32 icc (tag + 8) = some tag_size) :
    descTag icc tagdata tag
      = if wrapInt (tag_ofs + tag_size) > (icc.length : Int) then some false
        else if min 255 (wrapInt (tag_size - 12)) < 0 then none
        else (strncpy icc (tag_ofs + 12) (min 255 (wrapInt (tag_size - 12))).toNat 0 tagdata).bind
          (fun tagdata => some (strEq tagdata 0 (cstr "sRGB IEC61966-2.1")
            || strEq tagdata 0 (cstr "sRGB IEC61966-2-1")
            || strEq tagdata 0 (cstr "sRGB IEC61966")
            || strEq tagdata 0 (cstr "* wsRGB"))) := by
  unfold descTag
  rw [h4, h8]
  rfl

/-- The scan of the tag table stops at the first `"desc"` entry, when the entries
up to it lie inside the blob. -/
theorem scanTags_eq (icc : List Nat) (tagdata : Nat → Nat) (k : Nat)
    (hin : 132 + 12 * (k + 1) ≤ icc.length)
    (hdesc : bytesAt icc (132 + 12 * k) 4 = cstr "desc") (n i : Nat) (hik : i ≤ k)
    (hkn : k < i + n)
    (hfirst : ∀ j, i ≤ j → j < k → bytesAt icc (132 + 12 * j) 4 ≠ cstr "desc") :
    scanTags icc tagdata n i = descTag icc tagdata ((132 + 12 * k : Nat) : Int) := by
  induction n generalizing i with
  | zero => omega
  | succ n ih =>
    have etag : (128 : Int) + 4 + (i : Int) * 12 = ((132 + 12 * i : Nat) : Int) := by
      push_cast; ring
    rw [scanTags]
    rw [etag, if_neg (by omega), isDescTag_eq icc (132 + 12 * i) (by omega)]
    by_cases hi : i = k
    · subst hi
      rw [decide_eq_true hdesc]
    · rw [decide_eq_false (hfirst i (le_refl _) (by omega))]
      exact ih (i + 1) (by omega) (by omega) (fun j hj1 hj2 => hfirst j (by omega) hj2)

/-- C11 (counterexample). With an allocator that accepts negative sizes by their
absolute value, the request `-2 x -1` does not fail: a 2x1 bitmap comes back. -/
theorem fiRescaleNearestNeighbor_negative_size :
    ∃ r : FIBITMAP, fiRescaleNearestNeighbor allocAbs target4x1 (-2) (-1) = some r
      ∧ r.width = 2 ∧ r.height = 1 := by
  refine ⟨_, rfl, rfl, rfl⟩

/-- C11 (amended). For a requested size with `new_width < 1` or `new_height < 1`
the routine makes no test of its own: its result is that of `fiCreate`, which is
called first. It fails (the `Error` of `fiCreate`, no bitmap) exactly when the
allocator returns no bitmap, and otherwise returns the allocated bitmap with no
byte of it written. -/
theorem fiRescaleNearestNeighbor_small
    (FreeImage_Allocate : Int → Int → Nat → Option FIBITMAP) (bitmap : FIBITMAP)
    (new_width new_height : Int) (h : new_width < 1 ∨ new_height < 1) :
    fiRescaleNearestNeighbor FreeImage_Allocate bitmap new_width new_height
      = fiCreate FreeImage_Allocate new_width new_height bitmap.bpp := by
  have hloop : ∀ scaled : FIBITMAP, forLoop new_height.toNat
      (fun y dst_bits =>
        forLoop new_width.toNat
          (fun x dst_bits =>
            forLoop bitmap.bpp
              (fun d dst_bits =>
                dst_bits.store ((y : Int) * (scaled.pitch : Int)
                    + ((x : Int) * (bitmap.bpp : Int) + (d : Int)))
                  (bitmap.bits
                    (truncQ ((y : ℚ) * ((bitmap.height : ℚ) / (new_height : ℚ)))
                        * (bitmap.pitch : Int)
                      + (truncQ ((x : ℚ) * ((bitmap.width : ℚ) / (new_width : ℚ)))
                          * (bitmap.bpp : Int) + (d : Int)))))
              dst_bits)
          dst_bits)
      scaled.bits = scaled.bits := by
    intro scaled
    rcases h with h | h
    · apply forLoop_fix
      intro y _
      have : new_width.toNat = 0 := by omega
      rw [this]
      rfl
    · have : new_height.toNat = 0 := by omega
      rw [this]
      rfl
  unfold fiRescaleNearestNeighbor
  simp only
  cases fiCreate FreeImage_Allocate new_width new_height bitmap.bpp with
  | none => rfl
  | some scaled =>
    simp only
    rw [hloop scaled]

/-- C11 (witness). The amended theorem at the request `0 x 5` on the 4x1 source,
where the allocator returns no bitmap and the routine fails. -/
theorem fiRescaleNearestNeighbor_small_witness :
    fiRescaleNearestNeighbor allocAbs target4x1 0 5 = fiCreate allocAbs 0 5 target4x1.bpp
      ∧ fiCreate allocAbs 0 5 target4x1.bpp = none :=
  ⟨fiRescaleNearestNeighbor_small allocAbs target4x1 0 5 (Or.inl (by decide)), rfl⟩

/-! ## Compositor: depth tests, `COMBINE_MIN`, `COMBINE_MAX`, `COMBINE_ADD` at blend 1 -/

/-- The depth tests of the code accept a pair of depths exactly when the
requirement of the specification holds for it. -/
theorem depthsAccepted_iff (mode : FREE_IMAGE_COMBINE) (sbpp cbpp : Nat) :
    depthsAccepted mode sbpp cbpp = true ↔ specDepthRequirement mode sbpp cbpp := by
  cases mode <;> simp [depthsAccepted, specDepthRequirement]

/-- A mode with an alpha target writes only byte 3 of the pixel. -/
theorem combinePixel_r_to_alpha_apply (rb blend : ℚ) (inp : Mem) (o i : Int) (out : Mem)
    (a : Int) :
    combinePixel .COMBINE_R_TO_ALPHA rb blend inp o i out a
      = if a = o + 3 then blendByte (out (o + 3)) (inp i) rb blend else out a := rfl

/-- For two naturals, `(byte)max(0, min(floor(o + i*1), 255))` is `min(255, o + i)`. -/
theorem addByte_one (o i : Nat) : addByte o i 1 = min 255 (o + i) := by
  unfold addByte
  have h : (o : ℚ) + (i : ℚ) * 1 = (((o + i : Nat) : Int) : ℚ) := by push_cast; ring
  rw [h, Int.floor_intCast]
  unfold castByte
  omega

/-- C12. For a target and an overlay of the same width and height with depths among
1, 3, 4: when the depths do not meet the requirement of the mode (`COMBINE_RGB`,
`COMBINE_ADD`, `COMBINE_MIN`, `COMBINE_MAX`: both 3 or 4; `COMBINE_ALPHA`: both 4;
`COMBINE_R_TO_ALPHA`: target 4; `COMBINE_ALPHA_TO_RGB`: target 3 or 4 and overlay
4), `fiCombine` returns with every byte of the target unchanged; and in mode
`COMBINE_R_TO_ALPHA` on a target of depth 4 the overlay is used whatever its
depth: byte 3 of every target pixel ends as the blend of its old value with byte 0
of the overlay pixel, addressed with the overlay's own depth. -/
theorem fiCombine_depth_tests (source combine : FIBITMAP) (mode : FREE_IMAGE_COMBINE)
    (blend : ℚ)
    (hs : source.bpp = 1 ∨ source.bpp = 3 ∨ source.bpp = 4)
    (hc : combine.bpp = 1 ∨ combine.bpp = 3 ∨ combine.bpp = 4)
    (hw : source.width = combine.width) (hh : source.height = combine.height) :
    (¬ specDepthRequirement mode source.bpp combine.bpp →
      fiCombine source combine mode blend = some source.bits)
    ∧ (mode = .COMBINE_R_TO_ALPHA → source.bpp = 4 → source.width * 4 ≤ source.pitch →
        ∀ x y : Nat, x < source.width → y < source.height →
          ∃ out : Mem, fiCombine source combine mode blend = some out
            ∧ out ((y : Int) * (source.pitch : Int) + (x : Int) * 4 + 3)
              = blendByte (source.bits ((y : Int) * (source.pitch : Int) + (x : Int) * 4 + 3))
                  (combine.bits ((y : Int) * (combine.pitch : Int) + (x : Int) * (combine.bpp : Int)))
                  (1 - blend) blend) := by
  have hrun : fiCombine source combine mode blend
      = some (forLoop source.height
        (fun y out_data =>
          combineRow mode source.bpp combine.bpp source.width (1 - blend) blend combine.bits
            ((y : Int) * (source.pitch : Int)) ((y : Int) * (combine.pitch : Int)) out_data)
        source.bits) := by
    unfold fiCombine
    rw [if_neg (by omega), if_neg (by omega), if_neg (by omega)]
  constructor
  · intro hreq
    rw [hrun]
    congr 1
    apply forLoop_fix
    intro y _
    unfold combineRow
    rw [if_neg]
    rw [depthsAccepted_iff]
    exact hreq
  · intro hmode hs4 hpitch x y hx hy
    subst hmode
    obtain ⟨M, hM1, hM2⟩ := grid_at
      (fun y j out => combinePixel .COMBINE_R_TO_ALPHA (1 - blend) blend combine.bits
        ((y : Int) * (source.pitch : Int) + (j : Int) * ((4 : Nat) : Int))
        ((y : Int) * (combine.pitch : Int) + (j : Int) * (combine.bpp : Int)) out)
      source.pitch 4 4 source.width source.height (le_refl _) hpitch
      (fun y j out a ha => by
        show combinePixel .COMBINE_R_TO_ALPHA _ _ _ _ _ out a = out a
        rw [combinePixel_r_to_alpha_apply, if_neg]
        omega)
      x y hx hy source.bits
    refine ⟨_, hrun, ?_⟩
    have hacc : depthsAccepted .COMBINE_R_TO_ALPHA 4 combine.bpp = true := by
      simp [depthsAccepted]
    simp only [combineRow, hs4, hacc, if_true]
    have e : (y : Int) * (source.pitch : Int) + (x : Int) * 4 + 3
        = (y : Int) * (source.pitch : Int) + (x : Int) * ((4 : Nat) : Int) + 3 := by
      push_cast; ring
    rw [e, hM2 _ (by omega) (by omega), combinePixel_r_to_alpha_apply, if_pos rfl,
      hM1 _ (by omega) (by omega)]

/-- C12 (witness). The theorem at the 4x1 target of depth 3 and the 4x1 overlay of
depth 4 in mode `COMBINE_ALPHA`, whose requirement they do not meet. -/
theorem fiCombine_depth_tests_witness :
    ¬ specDepthRequirement .COMBINE_ALPHA target4x1.bpp overlay4x1.bpp
      ∧ fiCombine target4x1 overlay4x1 .COMBINE_ALPHA (1 / 2) = some target4x1.bits :=
  ⟨by decide,
    (fiCombine_depth_tests target4x1 overlay4x1 .COMBINE_ALPHA (1 / 2) (Or.inr (Or.inl rfl))
      (Or.inr (Or.inr rfl)) rfl rfl).1 (by decide)⟩

/-- C17. Modes `COMBINE_MIN` and `COMBINE_MAX` on a target of depth 3 or 4 and an
overlay of depth 3 or 4 of the same width and height, whose channels 0..2 equal
the target's in every pixel: `fiCombine` returns with every byte of the target
unchanged, for any blend factor. -/
theorem fiCombine_min_max_self (source combine : FIBITMAP) (mode : FREE_IMAGE_COMBINE)
    (blend : ℚ) (hmode : mode = .COMBINE_MIN ∨ mode = .COMBINE_MAX)
    (hs : source.bpp = 3 ∨ source.bpp = 4) (hc : combine.bpp = 3 ∨ combine.bpp = 4)
    (hw : source.width = combine.width) (hh : source.height = combine.height)
    (hsame : ∀ x y c : Nat, x < source.width → y < source.height → c < 3 →
      pixelByte combine x y c = pixelByte source x y c) :
    fiCombine source combine mode blend = some source.bits := by
  unfold fiCombine
  rw [if_neg (by omega), if_neg (by omega), if_neg (by omega)]
  simp only
  congr 1
  apply forLoop_fix
  intro y hy
  unfold combineRow
  split
  · apply forLoop_fix
    intro x hx
    have h0 := hsame x y 0 hx hy (by decide)
    have h1 := hsame x y 1 hx hy (by decide)
    have h2 := hsame x y 2 hx hy (by decide)
    simp only [pixelByte, Nat.cast_zero, add_zero, Nat.cast_one, Nat.cast_ofNat] at h0 h1 h2
    rcases hmode with h | h <;> subst h <;>
      simp only [combinePixel, h0, h1, h2, min_self, max_self, store_self]
  · rfl

/-- C17 (witness). The theorem in mode `COMBINE_MIN` with the 4x1 bitmap as both
target and overlay content. -/
theorem fiCombine_min_max_self_witness :
    fiCombine target4x1 target4x1 .COMBINE_MIN (1 / 3) = some target4x1.bits :=
  fiCombine_min_max_self target4x1 target4x1 .COMBINE_MIN (1 / 3) (Or.inl rfl) (Or.inl rfl)
    (Or.inl rfl) rfl rfl (fun _ _ _ _ _ _ => rfl)

/-- C18. Mode `COMBINE_ADD` with blend factor 1 on a target of depth 3 or 4 and an
overlay of depth 3 or 4 of the same width and height: channel `c < 3` of every
pixel `(x, y)` of the target ends as `min(255, old + overlay)`; a target channel
of 200 and an overlay channel of 100 give 255. -/
theorem fiCombine_add_saturates (source combine : FIBITMAP)
    (hs : source.bpp = 3 ∨ source.bpp = 4) (hc : combine.bpp = 3 ∨ combine.bpp = 4)
    (hw : source.width = combine.width) (hh : source.height = combine.height)
    (hpitch : source.width * source.bpp ≤ source.pitch)
    (x y c : Nat) (hx : x < source.width) (hy : y < source.height) (hc3 : c < 3) :
    ∃ out : Mem, fiCombine source combine .COMBINE_ADD 1 = some out
      ∧ out ((y : Int) * (source.pitch : Int) + (x : Int) * (source.bpp : Int) + (c : Int))
        = min 255
            (source.bits
                ((y : Int) * (source.pitch : Int) + (x : Int) * (source.bpp : Int) + (c : Int))
              + combine.bits
                ((y : Int) * (combine.pitch : Int) + (x : Int) * (combine.bpp : Int) + (c : Int)))
      ∧ (source.bits
            ((y : Int) * (source.pitch : Int) + (x : Int) * (source.bpp : Int) + (c : Int)) = 200 →
          combine.bits
            ((y : Int) * (combine.pitch : Int) + (x : Int) * (combine.bpp : Int) + (c : Int)) = 100 →
          out ((y : Int) * (source.pitch : Int) + (x : Int) * (source.bpp : Int) + (c : Int))
            = 255) := by
  obtain ⟨out, M, hout, hM, hval⟩ := fiCombine_at3 source combine .COMBINE_ADD 1
    (Or.inr (Or.inl rfl)) hs hc hw hh hpitch x y hx hy
  have hv : out ((y : Int) * (source.pitch : Int) + (x : Int) * (source.bpp : Int) + (c : Int))
      = min 255
          (source.bits
              ((y : Int) * (source.pitch : Int) + (x : Int) * (source.bpp : Int) + (c : Int))
            + combine.bits
              ((y : Int) * (combine.pitch : Int) + (x : Int) * (combine.bpp : Int) + (c : Int))) := by
    rw [hval c hc3, combinePixel_add_at _ _ _ _ _ _ c hc3, hM c hc3, add_assoc ((y : Int) * _),
      addByte_one]
  refine ⟨out, hout, hv, ?_⟩
  intro h200 h100
  rw [hv, h200, h100]
  rfl

/-- C18 (witness). The theorem at a 1x1 target whose channels hold 200 and a 1x1
overlay whose channels hold 100: channel 0 ends as 255. -/
theorem fiCombine_add_saturates_witness :
    ∃ out : Mem, fiCombine (gray1x1 200) (gray1x1 100) .COMBINE_ADD 1 = some out
      ∧ out 0 = 255 := by
  obtain ⟨out, h1, _, h3⟩ := fiCombine_add_saturates (gray1x1 200) (gray1x1 100) (Or.inl rfl)
    (Or.inl rfl) rfl rfl (by decide) 0 0 0 (by decide) (by decide) (by decide)
  exact ⟨out, h1, h3 rfl rfl⟩

/-! ## Resampler at the source size, transparency repair of an opaque bitmap -/

/-- C19. Requesting the source's own width and height, with the allocator
returning a bitmap of that size and of the source depth whose pitch holds a row:
`fiRescaleNearestNeighbor` returns a bitmap of the same size and depth in which
every channel byte `d` of every pixel `(x, y)` equals that of the source pixel
`(x, y)`. -/
theorem fiRescaleNearestNeighbor_same_size
    (FreeImage_Allocate : Int → Int → Nat → Option FIBITMAP) (bitmap scaled : FIBITMAP)
    (halloc : FreeImage_Allocate bitmap.width bitmap.height (bitmap.bpp * 8) = some scaled)
    (hsw : scaled.width = bitmap.width) (hsh : scaled.height = bitmap.height)
    (hsb : scaled.bpp = bitmap.bpp) (hsp : scaled.width * scaled.bpp ≤ scaled.pitch)
    (x y d : Nat) (hx : x < bitmap.width) (hy : y < bitmap.height) (hd : d < bitmap.bpp) :
    ∃ r : FIBITMAP,
      fiRescaleNearestNeighbor FreeImage_Allocate bitmap bitmap.width bitmap.height = some r
      ∧ r.width = bitmap.width ∧ r.height = bitmap.height ∧ r.bpp = bitmap.bpp
      ∧ pixelByte r x y d = pixelByte bitmap x y d := by
  have hxI : (x : Int) < (bitmap.width : Int) := by exact_mod_cast hx
  have hyI : (y : Int) < (bitmap.height : Int) := by exact_mod_cast hy
  obtain ⟨r, hr, hw, hh, hb, hpix⟩ := fiRescaleNearestNeighbor_at FreeImage_Allocate bitmap
    scaled bitmap.width bitmap.height (by omega) (by omega) halloc (by exact_mod_cast hsw)
    (by exact_mod_cast hsh) hsb hsp x y d hxI hyI hd
  refine ⟨r, hr, by exact_mod_cast hw, by exact_mod_cast hh, hb, ?_⟩
  unfold pixelByte
  rw [add_assoc, hpix, Int.mul_ediv_cancel _ (by omega), Int.mul_ediv_cancel _ (by omega),
    add_assoc]

/-- C19 (witness). The theorem for the 4x1 source of depth 3 at pixel (3, 0),
channel 2, with an allocator that returns zeroed bitmaps. -/
theorem fiRescaleNearestNeighbor_same_size_witness :
    ∃ r : FIBITMAP,
      fiRescaleNearestNeighbor allocZero target4x1 target4x1.width target4x1.height = some r
      ∧ r.width = target4x1.width ∧ r.height = target4x1.height ∧ r.bpp = target4x1.bpp
      ∧ pixelByte r (3 : Nat) (0 : Nat) (2 : Nat) = pixelByte target4x1 (3 : Nat) (0 : Nat) (2 : Nat) :=
  fiRescaleNearestNeighbor_same_size allocZero target4x1
    { width := 4, height := 1, bpp := 3, pitch := 12, bits := fun _ => 0 }
    rfl rfl rfl rfl (by decide) 3 0 2 (by decide) (by decide) (by decide)

/-- C20. On a bitmap of depth 4 (rows without padding) in which the alpha byte of
every pixel is 255, `fiFixTransparentPixels` returns the bitmap with every byte
as it was. -/
theorem fiFixTransparentPixels_opaque (bitmap : FIBITMAP) (tex_binaryAlphaMin : Int)
    (hbpp : bitmap.bpp = 4) (hpitch : bitmap.pitch = bitmap.width * 4)
    (halpha : ∀ x y : Nat, x < bitmap.width → y < bitmap.height →
      pixelByte bitmap x y 3 = 255) :
    fiFixTransparentPixels bitmap tex_binaryAlphaMin = bitmap := by
  have hloop : forLoop bitmap.height
      (fun y out =>
        forLoop bitmap.width
          (fun x out =>
            fixPixel bitmap.bits bitmap.width bitmap.height tex_binaryAlphaMin x y out)
          out)
      bitmap.bits = bitmap.bits := by
    apply forLoop_fix
    intro y hy
    apply forLoop_fix
    intro x hx
    have h := halpha x y hx hy
    unfold pixelByte at h
    rw [hpitch, hbpp] at h
    have e : (bitmap.width : Int) * 4 * (y : Int) + (x : Int) * 4 + 3
        = (y : Int) * ((bitmap.width * 4 : Nat) : Int) + (x : Int) * ((4 : Nat) : Int) + 3 := by
      push_cast; ring
    unfold fixPixel
    simp only
    rw [e, h, if_neg (by decide)]
  unfold fiFixTransparentPixels
  rw [if_neg (by omega)]
  simp only
  rw [hloop]

/-- C20 (witness). The theorem at a 1x1 bitmap of depth 4 whose pixel is
`10 20 30 255`. -/
theorem fiFixTransparentPixels_opaque_witness :
    fiFixTransparentPixels
        { width := 1, height := 1, bpp := 4, pitch := 4, bits := Mem.ofList [10, 20, 30, 255] } 0
      = { width := 1, height := 1, bpp := 4, pitch := 4, bits := Mem.ofList [10, 20, 30, 255] } :=
  fiFixTransparentPixels_opaque _ 0 rfl rfl
    (fun x y hx hy => by
      have hx0 : x = 0 := by simpa using hx
      have hy0 : y = 0 := by simpa using hy
      subst hx0
      subst hy0
      rfl)

/-! ## Convolution Engine: the driver -/

theorem set_apply (H : Blocks) (p : Nat) (v : Mem) (q : Nat) :
    H.set p v q = if q = p then v else H q := rfl

/-- What `fiGetUnalignedData` returns for a bitmap whose raster is block `raster`:
that block when rows have no padding, else block `k`; the block holds the packed
pixel data, and no block other than `k` changes. -/
theorem getUnaligned_spec (H : Blocks) (b : FIBITMAP) (raster k : Nat) (fresh : Mem)
    (hk : k ≠ raster) (hb : H raster = b.bits) :
    ((getUnaligned H b raster k fresh).2 = raster ∨ (getUnaligned H b raster k fresh).2 = k)
    ∧ ((getUnaligned H b raster k fresh).2 = raster ↔ b.width * b.bpp = b.pitch)
    ∧ (getUnaligned H b raster k fresh).1 (getUnaligned H b raster k fresh).2 = dataOf b fresh
    ∧ ∀ q, q ≠ k → (getUnaligned H b raster k fresh).1 q = H q := by
  have hbb : ({ b with bits := H raster } : FIBITMAP) = b := by rw [hb]
  unfold getUnaligned dataOf
  rw [hbb]
  unfold fiGetUnalignedData
  by_cases hp : b.width * b.bpp = b.pitch
  · simp [hp, hb]
  · simp [hp, hk, set_apply]
    intro q hq
    simp [hq]

/-- The state after `n + 1` turns of the loop of `fiFilter`, for an `out_data`
block distinct from the two others: the pointers have alternated, `in` points to
the result of the last pass and `out` to the buffer the next pass would write
over; blocks other than `out_data` and `out2_data` are as before. -/
theorem filterTurn_loop (pass : Mem → Mem → Mem) (i0 i1 i2 : Nat) (h12 : i1 ≠ i2)
    (H : Blocks) (n : Nat) :
    (forLoop (n + 1) (fun _ st => filterTurn pass i1 i2 st) { H := H, inp := i0, out := i1 }).inp
        = (if n % 2 = 0 then i1 else i2)
    ∧ (forLoop (n + 1) (fun _ st => filterTurn pass i1 i2 st) { H := H, inp := i0, out := i1 }).out
        = (if n % 2 = 0 then i2 else i1)
    ∧ (forLoop (n + 1) (fun _ st => filterTurn pass i1 i2 st) { H := H, inp := i0, out := i1 }).H
          (if n % 2 = 0 then i1 else i2)
        = (specPasses pass (H i0) (H i1) (H i2) (n + 1)).1
    ∧ (forLoop (n + 1) (fun _ st => filterTurn pass i1 i2 st) { H := H, inp := i0, out := i1 }).H
          (if n % 2 = 0 then i2 else i1)
        = (specPasses pass (H i0) (H i1) (H i2) (n + 1)).2
    ∧ ∀ q, q ≠ i1 → q ≠ i2 →
        (forLoop (n + 1) (fun _ st => filterTurn pass i1 i2 st) { H := H, inp := i0, out := i1 }).H q
          = H q := by
  have h21 : i2 ≠ i1 := fun e => h12 e.symm
  induction n with
  | zero =>
    refine ⟨?_, ?_, ?_, ?_, ?_⟩
    · simp [forLoop, filterTurn]
    · simp [forLoop, filterTurn]
    · simp [forLoop, filterTurn, set_apply, specPasses]
    · simp [forLoop, filterTurn, set_apply, specPasses, h21]
    · intro q hq1 hq2
      simp [forLoop, filterTurn, set_apply, hq1]
  | succ n ih =>
    rw [forLoop_succ]
    generalize forLoop (n + 1) (fun _ st => filterTurn pass i1 i2 st)
      { H := H, inp := i0, out := i1 } = st at ih
    obtain ⟨hi, ho, hHi, hHo, hfr⟩ := ih
    by_cases hpar : n % 2 = 0
    · have hpar2 : ¬ (n + 1) % 2 = 0 := by omega
      rw [if_pos hpar] at hi ho hHi hHo
      simp only [if_neg hpar2]
      have e : filterTurn pass i1 i2 st
          = { H := st.H.set i2 (pass (st.H i1) (st.H i2)), inp := i2, out := i1 } := by
        unfold filterTurn
        simp only [hi, ho, if_neg h21]
      rw [e]
      refine ⟨rfl, rfl, ?_, ?_, ?_⟩
      · simp only [set_apply, if_true, specPasses, hHi, hHo]
      · simp only [set_apply, if_neg h12, specPasses, hHi]
      · intro q hq1 hq2
        simp only [set_apply, if_neg hq2]
        exact hfr q hq1 hq2
    · have hpar2 : (n + 1) % 2 = 0 := by omega
      rw [if_neg hpar] at hi ho hHi hHo
      simp only [if_pos hpar2]
      have e : filterTurn pass i1 i2 st
          = { H := st.H.set i1 (pass (st.H i2) (st.H i1)), inp := i1, out := i2 } := by
        unfold filterTurn
        simp only [hi, ho, if_true]
      rw [e]
      refine ⟨rfl, rfl, ?_, ?_, ?_⟩
      · simp only [set_apply, if_true, specPasses, hHi, hHo]
      · simp only [set_apply, if_neg h21, specPasses, hHi]
      · intro q hq1 hq2
        simp only [set_apply, if_neg hq1]
        exact hfr q hq1 hq2

/-- The result of `fiFilterRun` after `n ≥ 1` turns: the bitmap whose buffer the
last pass wrote (`filtered` for odd `n`, `filtered2` for even `n`), holding the
pixel data that `n` passes in sequence produce from the packed pixel data of
`bitmap`; none when that bitmap is `bitmap` itself and `removeSource` has unloaded
it. -/
theorem fiFilterRun_eq (mem_alloc : Nat → Mem) (bitmap filtered filtered2 : FIBITMAP)
    (raster2 : Nat) (m : Nat → ℚ) (scale bias : ℚ) (n : Nat) (removeSource : Bool) (hn : 1 ≤ n)
    (hr : raster2 = 2 ∨ (raster2 = 0 ∧ filtered2 = bitmap)) :
    fiFilterRun mem_alloc bitmap filtered filtered2 raster2 m scale bias (n : Int) removeSource
      = if n % 2 = 0 ∧ removeSource = true ∧ raster2 = 0 then none
        else
          some
            (withData (if n % 2 = 0 then filtered2 else filtered)
              (specPasses (filterPass bitmap.width bitmap.height bitmap.bpp m scale bias)
                (dataOf bitmap (mem_alloc 0)) (dataOf filtered (mem_alloc 1))
                (dataOf filtered2 (mem_alloc 2)) n).1
              bitmap.width bitmap.height bitmap.bpp) := by
  obtain ⟨k, rfl⟩ : ∃ k, n = k + 1 := ⟨n - 1, by omega⟩
  have hr2 : raster2 = 2 ∨ raster2 = 0 := by
    rcases hr with h | h
    · exact Or.inl h
    · exact Or.inr h.1
  -- the initial blocks and the three calls of `fiGetUnalignedData`
  generalize hH : (fun p : Nat =>
    if p = 0 then bitmap.bits else if p = 1 then filtered.bits else filtered2.bits) = H
  have hH0 : H 0 = bitmap.bits := by rw [← hH]; rfl
  have hH1 : H 1 = filtered.bits := by rw [← hH]; rfl
  have hH2 : H raster2 = filtered2.bits := by
    rw [← hH]
    rcases hr with h | ⟨h, h2⟩
    · rw [h]; rfl
    · rw [h, h2]; rfl
  obtain ⟨a0, b0, c0, d0⟩ := getUnaligned_spec H bitmap 0 3 (mem_alloc 0) (by decide) hH0
  generalize hg0 : getUnaligned H bitmap 0 3 (mem_alloc 0) = g0 at a0 b0 c0 d0
  have hg01 : g0.1 1 = filtered.bits := by rw [d0 1 (by decide), hH1]
  obtain ⟨a1, b1, c1, d1⟩ := getUnaligned_spec g0.1 filtered 1 4 (mem_alloc 1) (by decide) hg01
  generalize hg1 : getUnaligned g0.1 filtered 1 4 (mem_alloc 1) = g1 at a1 b1 c1 d1
  have hg12 : g1.1 raster2 = filtered2.bits := by
    rw [d1 raster2 (by omega), d0 raster2 (by omega), hH2]
  obtain ⟨a2, b2, c2, d2⟩ := getUnaligned_spec g1.1 filtered2 raster2 5 (mem_alloc 2)
    (by omega) hg12
  generalize hg2 : getUnaligned g1.1 filtered2 raster2 5 (mem_alloc 2) = g2 at a2 b2 c2 d2
  have h12 : g1.2 ≠ g2.2 := by omega
  have hs0 : g2.1 g0.2 = dataOf bitmap (mem_alloc 0) := by
    rw [d2 _ (by omega), d1 _ (by omega), c0]
  have hs1 : g2.1 g1.2 = dataOf filtered (mem_alloc 1) := by
    rw [d2 _ (by omega), c1]
  obtain ⟨_, ho, hHi, _, hfr⟩ := filterTurn_loop
    (filterPass bitmap.width bitmap.height bitmap.bpp m scale bias) g0.2 g1.2 g2.2 h12 g2.1 k
  rw [hs0, hs1, c2] at hHi
  unfold fiFilterRun
  simp only [hH, hg0, hg1, hg2, Int.toNat_ofNat, ho]
  generalize forLoop (k + 1)
    (fun _ st =>
      filterTurn (filterPass bitmap.width bitmap.height bitmap.bpp m scale bias) g1.2 g2.2 st)
    { H := g2.1, inp := g0.2, out := g1.2 } = st at hHi hfr
  by_cases hpar : k % 2 = 0
  · have hpar2 : ¬ (k + 1) % 2 = 0 := by omega
    rw [if_pos hpar] at hHi
    rw [if_neg (fun h : (k + 1) % 2 = 0 ∧ removeSource = true ∧ raster2 = 0 => hpar2 h.1)]
    simp only [if_pos hpar, if_neg hpar2, if_neg h12.symm]
    congr 1
    unfold storeUnaligned withData
    by_cases hp : filtered.width * filtered.bpp = filtered.pitch
    · have e : g1.2 = 1 := b1.mpr hp
      rw [e] at hHi
      simp only [e, if_true, if_pos hp, fiStoreUnalignedData, hHi]
    · have e : g1.2 = 4 := by
        rcases a1 with h | h
        · exact absurd (b1.mp h) hp
        · exact h
      have e1 : st.H 1 = filtered.bits := by
        rw [hfr 1 (by omega) (by omega), d2 1 (by omega), d1 1 (by omega), hg01]
      rw [if_neg (by omega), if_neg hp, e1, hHi]
  · have hpar2 : (k + 1) % 2 = 0 := by omega
    rw [if_neg hpar] at hHi
    simp only [if_neg hpar, if_pos hpar2, if_true]
    by_cases hfree : removeSource = true ∧ raster2 = 0
    · rw [if_pos hfree, if_pos ⟨hpar2, hfree⟩]
    · rw [if_neg hfree, if_neg (fun h : (k + 1) % 2 = 0 ∧ removeSource = true ∧ raster2 = 0 =>
        hfree h.2)]
      congr 1
      unfold storeUnaligned withData
      by_cases hp : filtered2.width * filtered2.bpp = filtered2.pitch
      · have e : g2.2 = raster2 := b2.mpr hp
        rw [e] at hHi
        simp only [e, if_true, if_pos hp, fiStoreUnalignedData, hHi]
      · have e : g2.2 = 5 := by
          rcases a2 with h | h
          · exact absurd (b2.mp h) hp
          · exact h
        have e1 : st.H raster2 = filtered2.bits := by
          rw [hfr raster2 (by omega) (by omega), d2 raster2 (by omega), hg12]
        rw [if_neg (by omega), if_neg hp, e1, hHi]

/-! ## Convolution Engine: addresses of pixels in packed data -/

/-- Rows of `n` bytes copied from stride `B` to stride `A ≥ n`: byte `k` of row `y`
arrives from byte `k` of row `y`. -/
theorem rows_copy_at (src dst : Mem) (n A B : Nat) (h y k : Nat) (hn : n ≤ A) (hy : y < h)
    (hk : k < n) :
    forLoop h
        (fun y data => memcpy data ((y : Int) * (A : Int)) src ((y : Int) * (B : Int)) n)
        dst ((y : Int) * (A : Int) + (k : Int))
      = src ((y : Int) * (B : Int) + (k : Int)) := by
  induction h with
  | zero => omega
  | succ h ih =>
    rw [forLoop_succ, memcpy_apply]
    have hk2 : (k : Int) < (n : Int) := by exact_mod_cast hk
    have hn2 : (n : Int) ≤ (A : Int) := by exact_mod_cast hn
    by_cases hyh : y = h
    · subst hyh
      rw [if_pos (by constructor <;> omega)]
      congr 1; ring
    · have hlt : y < h := by omega
      have := mul_step_le y h A hlt
      rw [if_neg (by omega)]
      exact ih hlt

/-- Byte `k` of row `y` of the raster of `withData temp P` is byte `k` of row `y`
of the packed pixel data `P`. -/
theorem withData_at (temp : FIBITMAP) (P : Mem) (y k : Nat) (hy : y < temp.height)
    (hk : k < temp.width * temp.bpp) (hpitch : temp.width * temp.bpp ≤ temp.pitch) :
    (withData temp P temp.width temp.height temp.bpp).bits
        ((y : Int) * (temp.pitch : Int) + (k : Int))
      = P ((y : Int) * ((temp.width * temp.bpp : Nat) : Int) + (k : Int)) := by
  unfold withData
  by_cases hp : temp.width * temp.bpp = temp.pitch
  · simp only [hp, if_true]
  · simp only [hp, if_false, fiStoreUnalignedData]
    exact rows_copy_at P temp.bits (temp.width * temp.bpp) temp.pitch (temp.width * temp.bpp)
      temp.height y k hpitch hy hk

/-! ## Convolution Engine: what the loops of a pass write -/

theorem store_ne (m : Mem) (a : Int) (v : Nat) (i : Int) (h : i ≠ a) : m.store a v i = m i := by
  rw [store_apply, if_neg h]

/-- The result of `fiFilter` for `n ≥ 1` turns on a bitmap of depth 1, 3 or 4. For
`n ≥ 2` it is the bitmap whose buffer the last pass wrote, holding the data `n`
passes in sequence produce, except that for even `n` with `removeSource` that
bitmap is the source, which the routine unloads before it returns; for `n = 1`
there is a result only when the local `filtered2`, which is not assigned, holds
the address of a bitmap. -/
theorem fiFilter_eq (FreeImage_Clone : FIBITMAP → FIBITMAP) (mem_alloc : Nat → Mem)
    (filtered2_stale : Option FIBITMAP) (bitmap : FIBITMAP) (m : Nat → ℚ) (scale bias : ℚ)
    (n : Nat) (removeSource : Bool)
    (hbpp : bitmap.bpp = 1 ∨ bitmap.bpp = 3 ∨ bitmap.bpp = 4) (hn : 1 ≤ n) :
    fiFilter FreeImage_Clone mem_alloc filtered2_stale bitmap m scale bias (n : Int) removeSource
      = if 2 ≤ n then
          if n % 2 = 0 ∧ removeSource = true then none
          else
            some
              (withData (FreeImage_Clone bitmap)
                (specPasses (filterPass bitmap.width bitmap.height bitmap.bpp m scale bias)
                  (dataOf bitmap (mem_alloc 0)) (dataOf (FreeImage_Clone bitmap) (mem_alloc 1))
                  (dataOf (if removeSource then bitmap else FreeImage_Clone bitmap)
                    (mem_alloc 2))
                  n).1
                bitmap.width bitmap.height bitmap.bpp)
        else
          filtered2_stale.map
            (fun _ =>
              withData (FreeImage_Clone bitmap)
                (filterPass bitmap.width bitmap.height bitmap.bpp m scale bias
                  (dataOf bitmap (mem_alloc 0)) (dataOf (FreeImage_Clone bitmap) (mem_alloc 1)))
                bitmap.width bitmap.height bitmap.bpp) := by
  unfold fiFilter
  dsimp only
  rw [if_neg (by omega)]
  by_cases h2 : 2 ≤ n
  · have h1 : (n : Int) > 1 := by omega
    rw [if_pos h1, if_pos h2]
    cases removeSource
    · simp only [Bool.false_eq_true, if_false, and_false]
      rw [fiFilterRun_eq _ _ _ _ _ _ _ _ n _ hn (Or.inl rfl)]
      simp only [Bool.false_eq_true, false_and, and_false, if_false, ite_self]
    · simp only [if_true, and_true]
      rw [fiFilterRun_eq _ _ _ _ _ _ _ _ n _ hn (Or.inr ⟨rfl, rfl⟩)]
      by_cases hpar : n % 2 = 0
      · simp only [hpar, and_self, if_true]
      · simp only [hpar, false_and, if_false]
  · have h1 : n = 1 := by omega
    subst h1
    rw [if_neg (by decide), if_neg (by decide)]
    cases filtered2_stale with
    | none => rfl
    | some filtered2 =>
      simp only [Option.map_some']
      rw [fiFilterRun_eq _ _ _ _ _ _ _ _ 1 _ (le_refl 1) (Or.inl rfl)]
      rfl

theorem withData_pitch (temp : FIBITMAP) (P : Mem) (w h bpp : Nat) :
    (withData temp P w h bpp).pitch = temp.pitch := by
  unfold withData
  split <;> rfl

theorem withData_bpp (temp : FIBITMAP) (P : Mem) (w h bpp : Nat) :
    (withData temp P w h bpp).bpp = temp.bpp := by
  unfold withData
  split <;> rfl

theorem pixel_offset_lt (w bpp x c : Nat) (hx : x < w) (hc : c < bpp) :
    x * bpp + c < w * bpp := by
  have : (x + 1) * bpp ≤ w * bpp := Nat.mul_le_mul_right bpp hx
  have e : (x + 1) * bpp = x * bpp + bpp := by ring
  omega

/-- Channel `c` of the pixel `(x, y)` of `withData temp P` is the byte of the
packed pixel data `P` at `((y * width + x) * bpp + c)`. -/
theorem withData_pixel (temp : FIBITMAP) (P : Mem) (w h bpp : Nat) (htw : temp.width = w)
    (hth : temp.height = h) (htb : temp.bpp = bpp) (hpitch : w * bpp ≤ temp.pitch)
    (x y c : Nat) (hx : x < w) (hy : y < h) (hc : c < bpp) :
    pixelByte (withData temp P w h bpp) x y c
      = P (((y : Int) * (w : Int) + (x : Int)) * (bpp : Int) + (c : Int)) := by
  subst htw hth htb
  unfold pixelByte
  rw [withData_pitch, withData_bpp]
  have e1 : (y : Int) * (temp.pitch : Int) + (x : Int) * (temp.bpp : Int) + (c : Int)
      = (y : Int) * (temp.pitch : Int) + ((x * temp.bpp + c : Nat) : Int) := by
    push_cast; ring
  rw [e1, withData_at temp P y (x * temp.bpp + c) hy (pixel_offset_lt _ _ _ _ hx hc) hpitch]
  congr 1
  push_cast
  ring

/-- C13 (the code). On a bitmap of depth 1, 3 or 4: for `n ≥ 2` turns, `n` odd or
`removeSource` not set, `fiFilter` returns the bitmap whose buffer the last pass
wrote, holding the data obtained by `n` passes in sequence, the first of which
reads the packed pixel data of the source and every later one the complete output
of the pass before it, none reading the buffer it writes (`specPasses`). For even
`n` with `removeSource` the buffer the last pass wrote is the raster of the
source, and the routine unloads the source before it returns its address. For
`n = 1` the local `filtered2` is read without having been assigned: there is a
result, that of one pass, only when the variable happens to hold the address of a
bitmap, and none when it does not. -/
theorem fiFilter_passes (FreeImage_Clone : FIBITMAP → FIBITMAP) (mem_alloc : Nat → Mem)
    (filtered2_stale : Option FIBITMAP) (bitmap : FIBITMAP) (m : Nat → ℚ) (scale bias : ℚ)
    (n : Nat) (removeSource : Bool)
    (hbpp : bitmap.bpp = 1 ∨ bitmap.bpp = 3 ∨ bitmap.bpp = 4) (hn : 1 ≤ n) :
    (2 ≤ n → (n % 2 = 1 ∨ removeSource = false) →
      fiFilter FreeImage_Clone mem_alloc filtered2_stale bitmap m scale bias (n : Int)
          removeSource
        = some
            (withData (FreeImage_Clone bitmap)
              (specPasses (filterPass bitmap.width bitmap.height bitmap.bpp m scale bias)
                (dataOf bitmap (mem_alloc 0)) (dataOf (FreeImage_Clone bitmap) (mem_alloc 1))
                (dataOf (if removeSource then bitmap else FreeImage_Clone bitmap) (mem_alloc 2))
                n).1
              bitmap.width bitmap.height bitmap.bpp))
    ∧ (2 ≤ n → n % 2 = 0 → removeSource = true →
        fiFilter FreeImage_Clone mem_alloc filtered2_stale bitmap m scale bias (n : Int)
            removeSource = none)
    ∧ (n = 1 →
        fiFilter FreeImage_Clone mem_alloc filtered2_stale bitmap m scale bias (n : Int)
            removeSource
          = filtered2_stale.map
              (fun _ =>
                withData (FreeImage_Clone bitmap)
                  (filterPass bitmap.width bitmap.height bitmap.bpp m scale bias
                    (dataOf bitmap (mem_alloc 0))
                    (dataOf (FreeImage_Clone bitmap) (mem_alloc 1)))
                  bitmap.width bitmap.height bitmap.bpp))
    ∧ (n = 1 → filtered2_stale = none →
        fiFilter FreeImage_Clone mem_alloc filtered2_stale bitmap m scale bias (n : Int)
            removeSource = none) := by
  rw [fiFilter_eq _ _ _ _ _ _ _ _ _ hbpp hn]
  refine ⟨?_, ?_, ?_, ?_⟩
  · intro h2 hok
    rw [if_pos h2, if_neg]
    rintro ⟨he, hrs⟩
    rcases hok with h | h
    · omega
    · rw [hrs] at h
      exact absurd h (by decide)
  · intro h2 he hrs
    rw [if_pos h2, if_pos ⟨he, hrs⟩]
  · intro h1
    rw [if_neg (by omega)]
  · intro h1 hs
    rw [if_neg (by omega), hs]
    rfl

/-- C13 (witness). The theorem at the 4x3 bitmap: with one turn and the local
`filtered2` holding no bitmap address, and with two turns and `removeSource`, the
call has no result. -/
theorem fiFilter_passes_witness :
    fiFilter (fun b => b) (fun _ _ => 0) none uniform4x3 identityKernel2 2 0 ((1 : Nat) : Int)
        false = none
    ∧ fiFilter (fun b => b) (fun _ _ => 0) none uniform4x3 identityKernel2 2 0 ((2 : Nat) : Int)
        true = none :=
  ⟨(fiFilter_passes (fun b => b) (fun _ _ => 0) none uniform4x3 identityKernel2 2 0 1 false
      (Or.inl rfl) (le_refl 1)).2.2.2 rfl rfl,
    (fiFilter_passes (fun b => b) (fun _ _ => 0) none uniform4x3 identityKernel2 2 0 2 true
      (Or.inl rfl) (by decide)).2.1 (le_refl 2) rfl rfl⟩

/-- On a 4x3 raster of depth 1 the right-side loop computes the pixel (3, 1), at
offset 7, from the offsets 3, 4, 5, 7, 8, 9, 11, 12, 13: the last two lie past the
twelve bytes of the raster. -/
theorem filterPass_4x3_right (m : Nat → ℚ) (scale bias : ℚ) (X Y : Mem) :
    filterPass 4 3 1 m scale bias X Y 7
      = kernelSample X m scale bias 3 4 5 7 8 9 11 12 13 := by
  simp [filterPass, filterInterior, filterCorners, filterFirstRow, filterLastRow, filterSide,
    forLoop, Mem.store]

/-- One blur pass over the uniform 4x3 raster followed by zero bytes: every pixel
keeps 160 except (3, 1), at offset 7, which gets `13 * 160 / 16 = 130`; the bytes
past the raster are those of the output buffer. -/
theorem filterPass_uniform4x3 (Y : Mem) (hY : ∀ a, 12 ≤ a → Y a = 0) :
    filterPass 4 3 1 blurKernel 16 0 uniform4x3.bits Y 3 = 160
    ∧ filterPass 4 3 1 blurKernel 16 0 uniform4x3.bits Y 4 = 160
    ∧ filterPass 4 3 1 blurKernel 16 0 uniform4x3.bits Y 5 = 160
    ∧ filterPass 4 3 1 blurKernel 16 0 uniform4x3.bits Y 7 = 130
    ∧ filterPass 4 3 1 blurKernel 16 0 uniform4x3.bits Y 8 = 160
    ∧ filterPass 4 3 1 blurKernel 16 0 uniform4x3.bits Y 9 = 160
    ∧ filterPass 4 3 1 blurKernel 16 0 uniform4x3.bits Y 11 = 160
    ∧ filterPass 4 3 1 blurKernel 16 0 uniform4x3.bits Y 12 = 0
    ∧ filterPass 4 3 1 blurKernel 16 0 uniform4x3.bits Y 13 = 0 := by
  have h12 := hY 12 (by decide)
  have h13 := hY 13 (by decide)
  refine ⟨?_, ?_, ?_, ?_, ?_, ?_, ?_, ?_, ?_⟩ <;>
  · simp [filterPass, filterInterior, filterCorners, filterFirstRow, filterLastRow, filterSide,
      forLoop, Mem.store, h12, h13]
    try simp [kernelSample, uniform4x3, blurKernel, toUInt32, toInt32, truncQ, castByte]
    try norm_num
    try decide

/-- For a bitmap whose rows have no padding the packed pixel data are the raster
itself. -/
theorem dataOf_packed (b : FIBITMAP) (fresh : Mem) (hp : b.width * b.bpp = b.pitch) :
    dataOf b fresh = b.bits := by
  unfold dataOf fiGetUnalignedData
  simp [hp]

/-- On a bitmap of depth 1, 3 or 4, `fiBlur` is `fiFilter` with the kernel
`1 2 1 / 2 4 2 / 1 2 1`, scale 16 and bias 0. -/
theorem fiBlur_eq (FreeImage_Clone : FIBITMAP → FIBITMAP) (mem_alloc : Nat → Mem)
    (filtered2_stale : Option FIBITMAP) (bitmap : FIBITMAP) (iteractions : Int)
    (removeSource : Bool) (hbpp : bitmap.bpp = 1 ∨ bitmap.bpp = 3 ∨ bitmap.bpp = 4) :
    fiBlur FreeImage_Clone mem_alloc filtered2_stale bitmap iteractions removeSource
      = fiFilter FreeImage_Clone mem_alloc filtered2_stale bitmap blurKernel 16 0 iteractions
          removeSource := by
  have hscale : forLoop 9 (fun i scale => scale + blurKernel i) (0 : ℚ) = 16 := by
    simp [forLoop, blurKernel]
    norm_num
  unfold fiBlur
  rw [if_neg (by omega)]
  show fiFilter _ _ _ _ blurKernel (forLoop 9 (fun i scale => scale + blurKernel i) 0) 0 _ _ = _
  rw [hscale]

/-- C14 (the code at the failing input). `fiBlur` with two turns on the 4x3 bitmap
of depth 1 whose twelve pixels hold 160, the memory after each raster being zero:
the pixel (3, 1) of the result holds 126. The right-side loop of each pass reads
two of its nine samples past the end of the raster (`filterPass_4x3_right`), so
the first pass already gives that pixel `13 * 160 / 16 = 130`. -/
theorem fiBlur_uniform_right_column :
    ∃ r : FIBITMAP,
      fiBlur (fun b => b) (fun _ _ => 0) none uniform4x3 ((2 : Nat) : Int) false = some r
      ∧ pixelByte r (3 : Nat) (1 : Nat) (0 : Nat) = 126
      ∧ pixelByte uniform4x3 (3 : Nat) (1 : Nat) (0 : Nat) = 160 := by
  have h := fiFilter_eq (fun b => b) (fun _ _ => 0) none uniform4x3 blurKernel 16 0 2 false
    (Or.inl rfl) (by decide)
  rw [if_pos (by decide), if_neg (by decide)] at h
  simp only [Bool.false_eq_true, if_false, dataOf_packed uniform4x3 _ rfl] at h
  have hY : ∀ a : Int, 12 ≤ a → uniform4x3.bits a = 0 := by
    intro a ha
    unfold uniform4x3
    dsimp only
    rw [if_neg (by omega)]
  obtain ⟨p3, p4, p5, p7, p8, p9, p11, p12, p13⟩ := filterPass_uniform4x3 uniform4x3.bits hY
  refine ⟨_, (fiBlur_eq _ _ _ _ _ _ (Or.inl rfl)).trans h, ?_, ?_⟩
  · rw [withData_pixel _ _ _ _ _ rfl rfl rfl (by decide) 3 1 0 (by decide) (by decide)
      (by decide)]
    have e : ((1 : Nat) : Int) * (uniform4x3.width : Int) + ((3 : Nat) : Int) = 7 := rfl
    rw [e]
    show filterPass 4 3 1 blurKernel 16 0
      (filterPass 4 3 1 blurKernel 16 0 uniform4x3.bits uniform4x3.bits) uniform4x3.bits
        (7 * ((1 : Nat) : Int) + ((0 : Nat) : Int)) = 126
    have e2 : (7 : Int) * ((1 : Nat) : Int) + ((0 : Nat) : Int) = 7 := rfl
    rw [e2, filterPass_4x3_right]
    unfold kernelSample
    rw [p3, p4, p5, p7, p8, p9, p11, p12, p13]
    simp [blurKernel, toUInt32, toInt32, truncQ, castByte]
    norm_num
    have hf : ⌊|(505 : ℚ) / 4|⌋ = 126 := by
      rw [abs_of_nonneg (by norm_num), Int.floor_eq_iff]
      norm_num
    rw [hf]
    decide
  · simp [pixelByte, uniform4x3]

/-! ## Pixel Buffer Adapter: the packed copy -/

/-- The packed copy changes no byte of the block outside its first
`height * (width * bpp)` bytes. -/
theorem packed_copy_frame (bits fresh : Mem) (wb pitch : Nat) (h : Nat) (a : Int)
    (ha : a < 0 ∨ (h : Int) * (wb : Int) ≤ a) :
    forLoop h
        (fun y dataptr => memcpy dataptr ((y : Int) * (wb : Int)) bits ((y : Int) * (pitch : Int)) wb)
        fresh a
      = fresh a := by
  apply forLoop_frame
  intro y hy m
  rw [memcpy_apply, if_neg]
  have h1 := mul_step_le y h wb hy
  have h2 : (0 : Int) ≤ (y : Int) * (wb : Int) := by positivity
  omega

/-- C23. `fiGetUnalignedData` without `force_allocate`: when the pitch equals
`width * bpp` it returns the bitmap's own raster and leaves `data_allocated`
false; otherwise it returns a block from `mem_alloc` and leaves `data_allocated`
true, the block holding at `y * (width * bpp) + i`, for every row `y < height` and
every `i < width * bpp`, the byte `y * pitch + i` of the raster, and being written
nowhere outside its first `width * height * bpp` bytes. Of the memory blocks only the
new one changes: the raster of the bitmap is as before. -/
theorem fiGetUnalignedData_packed (bitmap : FIBITMAP) (fresh : Mem) (H : Blocks)
    (raster k : Nat) :
    (bitmap.pitch = bitmap.width * bitmap.bpp →
      fiGetUnalignedData bitmap false fresh = (DataPtr.own, false))
    ∧ (bitmap.pitch ≠ bitmap.width * bitmap.bpp →
        ∃ p : Mem, fiGetUnalignedData bitmap false fresh = (DataPtr.heap p, true)
          ∧ (∀ y i : Nat, y < bitmap.height → i < bitmap.width * bitmap.bpp →
              p ((y : Int) * ((bitmap.width * bitmap.bpp : Nat) : Int) + (i : Int))
                = bitmap.bits ((y : Int) * (bitmap.pitch : Int) + (i : Int)))
          ∧ (∀ a : Int, a < 0 ∨ ((bitmap.width * bitmap.height * bitmap.bpp : Nat) : Int) ≤ a →
              p a = fresh a))
    ∧ (k ≠ raster → (getUnaligned H bitmap raster k fresh).1 raster = H raster) := by
  refine ⟨?_, ?_, ?_⟩
  · intro he
    simp [fiGetUnalignedData, he]
  · intro hne
    have hp : ¬ bitmap.width * bitmap.bpp = bitmap.pitch := fun e => hne e.symm
    refine ⟨forLoop bitmap.height
      (fun y dataptr =>
        memcpy dataptr ((y : Int) * ((bitmap.width * bitmap.bpp : Nat) : Int)) bitmap.bits
          ((y : Int) * (bitmap.pitch : Int)) (bitmap.width * bitmap.bpp))
      fresh, ?_, ?_, ?_⟩
    · simp only [fiGetUnalignedData, hp, false_and, if_false]
    · intro y i hy hi
      exact packed_copy_at bitmap.bits fresh (bitmap.width * bitmap.bpp) bitmap.pitch
        bitmap.height y i hy hi
    · intro a ha
      apply packed_copy_frame
      rcases ha with ha | ha
      · exact Or.inl ha
      · right
        have e : ((bitmap.width * bitmap.height * bitmap.bpp : Nat) : Int)
            = (bitmap.height : Int) * ((bitmap.width * bitmap.bpp : Nat) : Int) := by
          push_cast; ring
        rw [← e]
        exact ha
  · intro hk
    unfold getUnaligned
    split
    · rfl
    · show H.set k _ raster = H raster
      rw [set_apply, if_neg (fun e => hk e.symm)]

/-- C23 (witness). The theorem at the 1x1 bitmap of depth 3 and pitch 4: a packed
block of 3 bytes is made. -/
theorem fiGetUnalignedData_packed_witness :
    ∃ p : Mem, fiGetUnalignedData (gray1x1 9) false (fun _ => 0) = (DataPtr.heap p, true)
      ∧ (∀ y i : Nat, y < (gray1x1 9).height → i < (gray1x1 9).width * (gray1x1 9).bpp →
          p ((y : Int) * (((gray1x1 9).width * (gray1x1 9).bpp : Nat) : Int) + (i : Int))
            = (gray1x1 9).bits ((y : Int) * ((gray1x1 9).pitch : Int) + (i : Int)))
      ∧ (∀ a : Int,
          a < 0 ∨ (((gray1x1 9).width * (gray1x1 9).height * (gray1x1 9).bpp : Nat) : Int) ≤ a →
          p a = (fun _ => 0) a) :=
  (fiGetUnalignedData_packed (gray1x1 9) (fun _ => 0) (fun _ _ => 0) 0 3).2.1 (by decide)

/-! ## Transparency Repair: what is left alone -/

/-- A loop whose turns read block 0 and replace block 1 leaves block 0 alone, and
block 1 ends as the loop run on that block alone. -/
theorem blocks_loop (f : Nat → Mem → Mem → Mem) (n : Nat) (H : Blocks) :
    forLoop n (fun j H => H.set 1 (f j (H 0) (H 1))) H
      = H.set 1 (forLoop n (fun j out => f j (H 0) out) (H 1)) := by
  induction n with
  | zero =>
    funext q
    show H q = H.set 1 (H 1) q
    rw [set_apply]
    split
    · rename_i e; rw [e]
    · rfl
  | succ n ih =>
    rw [forLoop_succ, ih, forLoop_succ]
    funext q
    simp only [set_apply]
    split
    · simp
    · rfl

/-- The loops of `fiFixTransparentPixels` on the two rasters: the raster of
`bitmap` is as before, and the raster of `filled` is the one the loops produce. -/
theorem fixTransparentBlocks_eq (w h : Nat) (T : Int) (H : Blocks) :
    fixTransparentBlocks w h T H
      = H.set 1
          (forLoop h
            (fun y out => forLoop w (fun x out => fixPixel (H 0) w h T x y out) out) (H 1)) := by
  unfold fixTransparentBlocks
  have hin : ∀ y : Nat,
      (fun H : Blocks => forLoop w (fun x H => H.set 1 (fixPixel (H 0) w h T x y (H 1))) H)
        = fun H => H.set 1 (forLoop w (fun x out => fixPixel (H 0) w h T x y out) (H 1)) := by
    intro y
    funext H
    exact blocks_loop (fun x d out => fixPixel d w h T x y out) w H
  have e : (fun (y : Nat) (H : Blocks) =>
      forLoop w (fun x H => H.set 1 (fixPixel (H 0) w h T x y (H 1))) H)
      = fun y H => H.set 1 (forLoop w (fun x out => fixPixel (H 0) w h T x y out) (H 1)) := by
    funext y
    exact hin y
  rw [e]
  exact blocks_loop (fun y d out => forLoop w (fun x out => fixPixel d w h T x y out) out) h H

/-- C21. On a bitmap of depth 4 (rows without padding), for every threshold: the
bitmap `fiFixTransparentPixels` returns has at every pixel the alpha byte of the
source, and at every pixel whose source alpha is 255 all four bytes of the source;
and the loops, which read through `data` (block 0, the raster of `bitmap`) and
store through `out` (block 1, the raster of the copy `filled`), leave the raster
of `bitmap` as it was. -/
theorem fiFixTransparentPixels_frame (bitmap : FIBITMAP) (tex_binaryAlphaMin : Int)
    (hbpp : bitmap.bpp = 4) (hpitch : bitmap.pitch = bitmap.width * 4) :
    (∀ x y : Nat, x < bitmap.width → y < bitmap.height →
      pixelByte (fiFixTransparentPixels bitmap tex_binaryAlphaMin) x y 3
        = pixelByte bitmap x y 3)
    ∧ (∀ x y : Nat, x < bitmap.width → y < bitmap.height → pixelByte bitmap x y 3 = 255 →
        ∀ c : Int, 0 ≤ c → c < 4 →
          pixelByte (fiFixTransparentPixels bitmap tex_binaryAlphaMin) x y c
            = pixelByte bitmap x y c)
    ∧ (∀ H : Blocks, H 0 = bitmap.bits → H 1 = bitmap.bits →
        fixTransparentBlocks bitmap.width bitmap.height tex_binaryAlphaMin H 0 = bitmap.bits
        ∧ fixTransparentBlocks bitmap.width bitmap.height tex_binaryAlphaMin H 1
            = (fiFixTransparentPixels bitmap tex_binaryAlphaMin).bits) := by
  refine ⟨?_, ?_, ?_⟩
  · intro x y hx hy
    obtain ⟨M, hM⟩ := fiFixTransparentPixels_at bitmap tex_binaryAlphaMin hbpp hpitch x y hx hy
    obtain ⟨h1, h2, h3⟩ := hM 3 (by decide) (by decide)
    rw [h3, h2, fixPixel_apply]
    split
    · rw [if_neg (by omega), if_neg (by omega), if_neg (by omega), h1]
    · exact h1
  · intro x y hx hy halpha c hc0 hc4
    obtain ⟨M, hM⟩ := fiFixTransparentPixels_at bitmap tex_binaryAlphaMin hbpp hpitch x y hx hy
    obtain ⟨_, g2, _⟩ := hM 3 (by decide) (by decide)
    obtain ⟨h1, h2, h3⟩ := hM c hc0 hc4
    rw [h3, h2, fixPixel_apply, ← g2, halpha, if_neg (by simp), h1]
  · intro H h0 h1
    rw [fixTransparentBlocks_eq]
    refine ⟨?_, ?_⟩
    · rw [set_apply, if_neg (by decide), h0]
    · rw [set_apply, if_pos rfl, h0, h1]
      unfold fiFixTransparentPixels
      rw [if_neg (by omega)]

/-- C21 (witness). The theorem at the 2x1 bitmap with a transparent pixel next to
an opaque one: the alpha bytes 0 and 255 are kept and the opaque pixel keeps its
four bytes. -/
theorem fiFixTransparentPixels_frame_witness :
    pixelByte (fiFixTransparentPixels edge2x1 0) (0 : Nat) (0 : Nat) 3 = pixelByte edge2x1 (0 : Nat) (0 : Nat) 3
    ∧ pixelByte (fiFixTransparentPixels edge2x1 0) (1 : Nat) (0 : Nat) 0
        = pixelByte edge2x1 (1 : Nat) (0 : Nat) 0 :=
  ⟨(fiFixTransparentPixels_frame edge2x1 0 rfl rfl).1 0 0 (by decide) (by decide),
    (fiFixTransparentPixels_frame edge2x1 0 rfl rfl).2.1 1 0 (by decide) (by decide) (by decide)
      0 (by decide) (by decide)⟩

/-! ## Resampler: the source coordinates -/

/-- One turn of the loop of a mode changes no byte outside the range it stores
into. -/
theorem combinePixel_frame (mode : FREE_IMAGE_COMBINE) (rb blend : ℚ) (inp : Mem) (o i : Int)
    (out : Mem) (a : Int)
    (ha : a < o + ((storeRange mode).1 : Int) ∨ o + ((storeRange mode).2 : Int) ≤ a) :
    combinePixel mode rb blend inp o i out a = out a := by
  cases mode <;> simp only [storeRange] at ha <;> simp only [combinePixel] <;>
    repeat (rw [store_ne _ _ _ _ (by omega)])

/-- A call of `fiCombine` changes no byte of the target outside the ranges its
mode stores into, pixel by pixel. -/
theorem fiCombine_frame (source combine : FIBITMAP) (mode : FREE_IMAGE_COMBINE) (blend : ℚ)
    (out : Mem) (hout : fiCombine source combine mode blend = some out) (a : Int)
    (ha : ∀ x y : Nat, x < source.width → y < source.height →
      a < (y : Int) * (source.pitch : Int) + (x : Int) * (source.bpp : Int)
            + ((storeRange mode).1 : Int)
        ∨ (y : Int) * (source.pitch : Int) + (x : Int) * (source.bpp : Int)
            + ((storeRange mode).2 : Int) ≤ a) :
    out a = source.bits a := by
  unfold fiCombine at hout
  dsimp only at hout
  split_ifs at hout
  rw [← Option.some.inj hout]
  apply forLoop_frame
  intro y hy m
  unfold combineRow
  split
  · apply forLoop_frame
    intro x hx m2
    exact combinePixel_frame mode _ _ _ _ _ _ a (ha x y hx hy)
  · rfl

/-- Distinct pixels of a raster whose pitch holds a row occupy disjoint byte
ranges, ordered as the pixels are. -/
theorem cell_sep (w s P x y x' y' : Nat) (hP : w * s ≤ P) (hx : x < w) (hx' : x' < w)
    (hne : x ≠ x' ∨ y ≠ y') :
    (y : Int) * (P : Int) + (x : Int) * (s : Int) + (s : Int)
        ≤ (y' : Int) * (P : Int) + (x' : Int) * (s : Int)
      ∨ (y' : Int) * (P : Int) + (x' : Int) * (s : Int) + (s : Int)
        ≤ (y : Int) * (P : Int) + (x : Int) * (s : Int) := by
  have hPI : (w : Int) * (s : Int) ≤ (P : Int) := by exact_mod_cast hP
  have hxs := mul_step_le x w s hx
  have hxs' := mul_step_le x' w s hx'
  have hx0 : (0 : Int) ≤ (x : Int) * (s : Int) := by positivity
  have hx0' : (0 : Int) ≤ (x' : Int) * (s : Int) := by positivity
  rcases Nat.lt_trichotomy y y' with h | h | h
  · left
    have := mul_step_le y y' P h
    omega
  · subst h
    rcases Nat.lt_trichotomy x x' with h | h | h
    · left
      have := mul_step_le x x' s h
      omega
    · omega
    · right
      have := mul_step_le x' x s h
      omega
  · right
    have := mul_step_le y' y P h
    omega

/-- Under the depth requirement of its mode, a mode other than
`COMBINE_ALPHA_TO_RGB` on a target of depth 3 stores inside the pixel. -/
theorem storeRange_le (mode : FREE_IMAGE_COMBINE) (s c : Nat)
    (hreq : specDepthRequirement mode s c) (h : mode ≠ .COMBINE_ALPHA_TO_RGB ∨ s = 4) :
    (storeRange mode).2 ≤ s := by
  cases mode <;> simp only [specDepthRequirement] at hreq <;> simp only [storeRange] <;>
    first
      | omega
      | (rcases h with h | h
         · exact absurd rfl h
         · omega)

/-- C27 (the code). For a target and an overlay of the same width and height
whose depths meet the requirement of the mode, the target pitch holding a row:
`fiCombine` returns, and modes `COMBINE_RGB`, `COMBINE_ADD`, `COMBINE_MIN`,
`COMBINE_MAX` leave byte 3 of every pixel of a target of depth 4 unchanged; modes
`COMBINE_ALPHA` and `COMBINE_R_TO_ALPHA` leave bytes 0..2 of every pixel
unchanged; the padding bytes `width * bpp .. pitch - 1` of every row are unchanged
in every mode other than `COMBINE_ALPHA_TO_RGB`, and in that mode on a target of
depth 4. In mode `COMBINE_ALPHA_TO_RGB` on a target of depth 3 the store
`out[3] = 255` of the last pixel of a row lands on the first padding byte: on the
1x1 target of depth 3 and pitch 4, offset 3 ends as 255, from 0. -/
theorem fiCombine_channels (source combine : FIBITMAP) (mode : FREE_IMAGE_COMBINE) (blend : ℚ)
    (hreq : specDepthRequirement mode source.bpp combine.bpp)
    (hc : combine.bpp = 1 ∨ combine.bpp = 3 ∨ combine.bpp = 4)
    (hw : source.width = combine.width) (hh : source.height = combine.height)
    (hpitch : source.width * source.bpp ≤ source.pitch) :
    (∃ out : Mem, fiCombine source combine mode blend = some out
      ∧ ((mode = .COMBINE_RGB ∨ mode = .COMBINE_ADD ∨ mode = .COMBINE_MIN
            ∨ mode = .COMBINE_MAX) → source.bpp = 4 →
          ∀ x y : Nat, x < source.width → y < source.height →
            out ((y : Int) * (source.pitch : Int) + (x : Int) * (source.bpp : Int) + 3)
              = source.bits
                  ((y : Int) * (source.pitch : Int) + (x : Int) * (source.bpp : Int) + 3))
      ∧ ((mode = .COMBINE_ALPHA ∨ mode = .COMBINE_R_TO_ALPHA) →
          ∀ x y c : Nat, x < source.width → y < source.height → c < 3 →
            out ((y : Int) * (source.pitch : Int) + (x : Int) * (source.bpp : Int) + (c : Int))
              = source.bits
                  ((y : Int) * (source.pitch : Int) + (x : Int) * (source.bpp : Int)
                    + (c : Int)))
      ∧ ((mode ≠ .COMBINE_ALPHA_TO_RGB ∨ source.bpp = 4) →
          ∀ y k : Nat, y < source.height → source.width * source.bpp ≤ k → k < source.pitch →
            out ((y : Int) * (source.pitch : Int) + (k : Int))
              = source.bits ((y : Int) * (source.pitch : Int) + (k : Int))))
    ∧ (∃ out : Mem, fiCombine (gray1x1 7) overlay1x1 .COMBINE_ALPHA_TO_RGB 0 = some out
        ∧ out 3 = 255 ∧ (gray1x1 7).bits 3 = 0
        ∧ (gray1x1 7).width * (gray1x1 7).bpp = 3 ∧ (gray1x1 7).pitch = 4) := by
  have hs : source.bpp = 1 ∨ source.bpp = 3 ∨ source.bpp = 4 := by
    cases mode <;> simp only [specDepthRequirement] at hreq <;> omega
  have hrun : fiCombine source combine mode blend
      = some (forLoop source.height
        (fun y out_data =>
          combineRow mode source.bpp combine.bpp source.width (1 - blend) blend combine.bits
            ((y : Int) * (source.pitch : Int)) ((y : Int) * (combine.pitch : Int)) out_data)
        source.bits) := by
    unfold fiCombine
    rw [if_neg (by omega), if_neg (by omega), if_neg (by omega)]
  constructor
  · refine ⟨_, hrun, ?_, ?_, ?_⟩
    · intro hmode hs4 x y hx hy
      apply fiCombine_frame source combine mode blend _ hrun
      intro x' y' hx' hy'
      have hr : storeRange mode = (0, 3) := by
        rcases hmode with h | h | h | h <;> subst h <;> rfl
      rw [hr]
      by_cases hsame : x' = x ∧ y' = y
      · obtain ⟨rfl, rfl⟩ := hsame
        right
        push_cast
        omega
      · have := cell_sep source.width source.bpp source.pitch x y x' y' hpitch hx hx'
          (by omega)
        rw [hs4] at this ⊢
        push_cast at this ⊢
        omega
    · intro hmode x y c hx hy hc3
      have hs4 : source.bpp = 4 := by
        rcases hmode with h | h <;> subst h <;> simp only [specDepthRequirement] at hreq <;>
          omega
      apply fiCombine_frame source combine mode blend _ hrun
      intro x' y' hx' hy'
      have hr : storeRange mode = (3, 4) := by
        rcases hmode with h | h <;> subst h <;> rfl
      rw [hr]
      by_cases hsame : x' = x ∧ y' = y
      · obtain ⟨rfl, rfl⟩ := hsame
        left
        push_cast
        omega
      · have := cell_sep source.width source.bpp source.pitch x y x' y' hpitch hx hx'
          (by omega)
        rw [hs4] at this ⊢
        push_cast at this ⊢
        omega
    · intro hmode y k hy hk1 hk2
      apply fiCombine_frame source combine mode blend _ hrun
      intro x' y' hx' hy'
      have hhi := storeRange_le mode source.bpp combine.bpp hreq hmode
      have hhiI : (((storeRange mode).2 : Nat) : Int) ≤ (source.bpp : Int) := by
        exact_mod_cast hhi
      have hlo : (0 : Int) ≤ (((storeRange mode).1 : Nat) : Int) := by positivity
      have hxs := mul_step_le x' source.width source.bpp hx'
      have hk1I : (source.width : Int) * (source.bpp : Int) ≤ (k : Int) := by exact_mod_cast hk1
      have hk2I : (k : Int) < (source.pitch : Int) := by exact_mod_cast hk2
      have hx0 : (0 : Int) ≤ (x' : Int) * (source.bpp : Int) := by positivity
      rcases Nat.lt_trichotomy y' y with h | h | h
      · right
        have := mul_step_le y' y source.pitch h
        omega
      · subst h
        right
        omega
      · left
        have := mul_step_le y y' source.pitch h
        omega
  · refine ⟨_, rfl, ?_, by decide, by decide, by decide⟩
    simp [gray1x1, overlay1x1, combineRow, depthsAccepted, combinePixel, forLoop, Mem.store]

/-- C27 (witness). The theorem applied to the 4x1 target of depth 3 and the 4x1
overlay of depth 4 in mode `COMBINE_RGB`, where its hypotheses hold; its last part
is the run of `COMBINE_ALPHA_TO_RGB` on the 1x1 target of depth 3 and pitch 4. -/
theorem fiCombine_channels_witness :
    ∃ out : Mem, fiCombine (gray1x1 7) overlay1x1 .COMBINE_ALPHA_TO_RGB 0 = some out
      ∧ out 3 = 255 ∧ (gray1x1 7).bits 3 = 0
      ∧ (gray1x1 7).width * (gray1x1 7).bpp = 3 ∧ (gray1x1 7).pitch = 4 :=
  (fiCombine_channels target4x1 overlay4x1 .COMBINE_RGB (1 / 2) (by decide) (Or.inr (Or.inr rfl))
    rfl rfl (by decide)).2

/-! ## Convolution Engine: the offsets the right-side loop reads -/

/-- With the kernel whose only weight is `m[7] = 1` (scale 1, bias 0) a sample is
the byte at the eighth offset. -/
theorem kernelSample_only7 (inp : Mem) (a0 a1 a2 a3 a4 a5 a6 a7 a8 : Int) (hb : inp a7 < 256) :
    kernelSample inp (onlyWeight 7) 1 0 a0 a1 a2 a3 a4 a5 a6 a7 a8 = inp a7 := by
  unfold kernelSample
  dsimp only
  have e : ((inp a0 : ℚ) * onlyWeight 7 0 + (inp a1 : ℚ) * onlyWeight 7 1
      + (inp a2 : ℚ) * onlyWeight 7 2 + (inp a3 : ℚ) * onlyWeight 7 3
      + (inp a4 : ℚ) * onlyWeight 7 4 + (inp a5 : ℚ) * onlyWeight 7 5
      + (inp a6 : ℚ) * onlyWeight 7 6 + (inp a7 : ℚ) * onlyWeight 7 7
      + (inp a8 : ℚ) * onlyWeight 7 8) / 1 + 0 = (((inp a7 : Nat) : Int) : ℚ) := by
    simp [onlyWeight]
  rw [e]
  generalize inp a7 = v at hb
  have h0 : (0 : ℚ) ≤ (((v : Nat) : Int) : ℚ) := by positivity
  rw [abs_of_nonneg h0]
  unfold toUInt32 truncQ
  rw [if_pos h0, Int.floor_intCast, Int.toNat_ofNat, Nat.mod_eq_of_lt (by omega)]
  unfold toInt32
  rw [if_pos (by omega)]
  unfold castByte
  omega

/-- What a side loop that starts at offset `y0` leaves in byte `ci` of its `ii`-th
pixel: the sample over the nine offsets of the code, for a raster at least one
pixel wide. -/
theorem filterSide_at (y0 : Int) (width height bpp : Nat) (m : Nat → ℚ) (scale bias : ℚ)
    (inp out : Mem) (ii ci : Nat) (hw : 1 ≤ width) (hii : ii < height - 2) (hci : ci < bpp) :
    filterSide y0 width height bpp m scale bias inp out
        (y0 + (ii : Int) * ((width : Int) * (bpp : Int)) + (ci : Int))
      = kernelSample inp m scale bias
          (y0 + (ii : Int) * ((width : Int) * (bpp : Int)) - (width : Int) * (bpp : Int)
            + (ci : Int))
          (y0 + (ii : Int) * ((width : Int) * (bpp : Int)) - (width : Int) * (bpp : Int)
            + (bpp : Int) + (ci : Int))
          (y0 + (ii : Int) * ((width : Int) * (bpp : Int)) - (width : Int) * (bpp : Int)
            + 2 * (bpp : Int) + (ci : Int))
          (y0 + (ii : Int) * ((width : Int) * (bpp : Int)) + (ci : Int))
          (y0 + (ii : Int) * ((width : Int) * (bpp : Int)) + (bpp : Int) + (ci : Int))
          (y0 + (ii : Int) * ((width : Int) * (bpp : Int)) + 2 * (bpp : Int) + (ci : Int))
          (y0 + (ii : Int) * ((width : Int) * (bpp : Int)) + (width : Int) * (bpp : Int)
            + (ci : Int))
          (y0 + (ii : Int) * ((width : Int) * (bpp : Int)) + (width : Int) * (bpp : Int)
            + (bpp : Int) + (ci : Int))
          (y0 + (ii : Int) * ((width : Int) * (bpp : Int)) + (width : Int) * (bpp : Int)
            + 2 * (bpp : Int) + (ci : Int)) := by
  have hbw : (bpp : Int) ≤ (width : Int) * (bpp : Int) := by
    have : 1 * bpp ≤ width * bpp := Nat.mul_le_mul_right bpp hw
    have h2 : ((1 * bpp : Nat) : Int) ≤ ((width * bpp : Nat) : Int) := by exact_mod_cast this
    push_cast at h2
    omega
  have hciI : (ci : Int) < (bpp : Int) := by exact_mod_cast hci
  unfold filterSide
  dsimp only
  rw [forLoop_at _ _ (height - 2) ii _ hii, forLoop_at _ _ bpp ci _ hci]
  · rw [store_apply, if_pos rfl]
  · intro k hk hne m1
    apply store_ne
    omega
  · intro k hk hne m1
    apply forLoop_frame
    intro j hj m2
    apply store_ne
    have hjI : (j : Int) < (bpp : Int) := by exact_mod_cast hj
    rcases Nat.lt_or_gt_of_ne hne with h | h
    · have := mul_step_le k ii (width * bpp) h
      push_cast at this
      omega
    · have := mul_step_le ii k (width * bpp) h
      push_cast at this
      omega

/-- C25 (the code). On a packed raster of `width ≥ 1` by `height ≥ 3` pixels, with
the kernel whose only weight is `m[7] = 1` (scale 1, bias 0), a pass leaves in
channel `c` of the pixel `(width - 1, height - 2)` the byte of its input at offset
`width * height * bpp + c`: the right-side loop reads the offsets
`y + pitch + bpp + c` and `y + pitch + 2*bpp + c` with `y = 2*pitch - bpp + i*pitch`,
which for the last interior row are `height * pitch + c` and
`height * pitch + bpp + c`, past the `width * height * bpp` bytes of the raster. -/
theorem filterPass_reads_past_end (width height bpp : Nat) (inp out : Mem) (c : Nat)
    (hw : 1 ≤ width) (hh : 3 ≤ height) (hc : c < bpp)
    (hb : inp ((width * height * bpp + c : Nat) : Int) < 256) :
    filterPass width height bpp (onlyWeight 7) 1 0 inp out
        ((((height - 2) * width + (width - 1)) * bpp + c : Nat) : Int)
      = inp ((width * height * bpp + c : Nat) : Int) := by
  obtain ⟨w, rfl⟩ : ∃ w, width = w + 1 := ⟨width - 1, by omega⟩
  obtain ⟨h, rfl⟩ : ∃ h, height = h + 3 := ⟨height - 3, by omega⟩
  have e1 : ((((h + 3 - 2) * (w + 1) + (w + 1 - 1)) * bpp + c : Nat) : Int)
      = (((w + 1 : Nat) : Int) * (bpp : Int) * 2 - (bpp : Int))
        + (h : Int) * (((w + 1 : Nat) : Int) * (bpp : Int)) + (c : Int) := by
    have a1 : h + 3 - 2 = h + 1 := by omega
    have a2 : w + 1 - 1 = w := by omega
    rw [a1, a2]
    push_cast
    ring
  unfold filterPass
  rw [e1, filterSide_at _ _ _ _ _ _ _ _ _ h c (by omega) (by omega) hc]
  have e7 : (((w + 1 : Nat) : Int) * (bpp : Int) * 2 - (bpp : Int))
        + (h : Int) * (((w + 1 : Nat) : Int) * (bpp : Int)) + ((w + 1 : Nat) : Int) * (bpp : Int)
        + (bpp : Int) + (c : Int)
      = (((w + 1) * (h + 3) * bpp + c : Nat) : Int) := by
    push_cast
    ring
  rw [e7]
  exact kernelSample_only7 _ _ _ _ _ _ _ _ _ _ hb

/-- C25 (witness). The theorem at the 3x3 raster of depth 1: the pixel (2, 1), at
offset 5, gets the byte at offset 9, one past the nine bytes of the raster. -/
theorem filterPass_reads_past_end_witness :
    filterPass 3 3 1 (onlyWeight 7) 1 0 raster3x3 raster3x3
        ((((3 - 2) * 3 + (3 - 1)) * 1 + 0 : Nat) : Int)
      = raster3x3 ((3 * 3 * 1 + 0 : Nat) : Int) :=
  filterPass_reads_past_end 3 3 1 raster3x3 raster3x3 0 (by decide) (by decide) (by decide)
    (by decide)

/-! ## Color Profile Classifier: the results `false` -/

/-- A big-endian field inside the blob is read as its value wrapped to `int`. -/
theorem readBE32_wrap (icc : List Nat) (a : Nat) (ha : a + 3 < icc.length) :
    readBE32 icc (a : Int) = some (wrapInt (be32At icc a : Int)) := by
  unfold readBE32
  have e1 : (a : Int) + 1 = ((a + 1 : Nat) : Int) := by push_cast; ring
  have e2 : (a : Int) + 2 = ((a + 2 : Nat) : Int) := by push_cast; ring
  have e3 : (a : Int) + 3 = ((a + 3 : Nat) : Int) := by push_cast; ring
  rw [e1, e2, e3, readIcc_eq icc a (by omega), readIcc_eq icc (a + 1) (by omega),
    readIcc_eq icc (a + 2) (by omega), readIcc_eq icc (a + 3) (by omega)]
  simp only [Option.bind_eq_bind, Option.some_bind, Option.pure_def]
  have hz : ((icc.getD a 0 : Int) * 0x1000000 + (icc.getD (a + 1) 0 : Int) * 0x10000
      + (icc.getD (a + 2) 0 : Int) * 0x100 + (icc.getD (a + 3) 0 : Int))
      = (be32At icc a : Int) := by
    unfold be32At
    push_cast
    ring
  rw [hz]

/-- The number of iterations of the table loop is at most the tag count. -/
theorem wrapInt_toNat_le (n : Nat) : (wrapInt (n : Int)).toNat ≤ n := by
  unfold wrapInt
  omega

/-- The scan of the tag table returns false when every entry it looks at has its
signature inside the blob and different from `"desc"`. -/
theorem scanTags_no_desc (icc : List Nat) (tagdata : Nat → Nat) (n i : Nat)
    (h : ∀ j, i ≤ j → j < i + n → 132 + 12 * j ≤ icc.length →
      132 + 12 * j + 4 ≤ icc.length ∧ bytesAt icc (132 + 12 * j) 4 ≠ cstr "desc") :
    scanTags icc tagdata n i = some false := by
  induction n generalizing i with
  | zero => rfl
  | succ n ih =>
    have etag : (128 : Int) + 4 + (i : Int) * 12 = ((132 + 12 * i : Nat) : Int) := by
      push_cast; ring
    rw [scanTags]
    rw [etag]
    by_cases hin : 132 + 12 * i ≤ icc.length
    · obtain ⟨h1, h2⟩ := h i (le_refl _) (by omega) hin
      rw [if_neg (by omega), isDescTag_eq icc (132 + 12 * i) (by omega), decide_eq_false h2]
      exact ih (i + 1) (fun j hj1 hj2 hj3 => h j (by omega) (by omega) hj3)
    · rw [if_pos (by omega)]

/-- With `"acsp"` at 36..39 of a blob of at least 132 bytes the routine goes on to
the scan of the tag table, for the tag count read as an `int`. -/
theorem ICCProfile_Test_sRGB_scan (icc : List Nat) (tagdata : Nat → Nat)
    (hlen : 132 ≤ icc.length) (hsig : bytesAt icc 36 4 = cstr "acsp") :
    ICCProfile_Test_sRGB (some icc) tagdata
      = scanTags icc tagdata (wrapInt (be32At icc 128 : Int)).toNat 0 := by
  have h4 := bytesAt_four icc 36 (by omega)
  rw [hsig] at h4
  have hacsp : cstr "acsp" = [97, 99, 115, 112] := by decide
  rw [hacsp] at h4
  simp only [List.cons.injEq, and_true] at h4
  obtain ⟨h36, h37, h38, h39⟩ := h4
  unfold ICCProfile_Test_sRGB
  have r36 := readIcc_eq icc 36 (by omega)
  have r37 := readIcc_eq icc 37 (by omega)
  have r38 := readIcc_eq icc 38 (by omega)
  have r39 := readIcc_eq icc 39 (by omega)
  have rcount := readBE32_wrap icc 128 (by omega)
  simp only [Nat.cast_ofNat] at r36 r37 r38 r39 rcount
  rw [← h36] at r36
  rw [← h37] at r37
  rw [← h38] at r38
  rw [← h39] at r39
  simp only [r36, r37, r38, r39, Option.bind_eq_bind, Option.some_bind, ne_eq,
    not_true_eq_false, if_false]
  rw [rcount, Option.some_bind]

/-- Without `"acsp"` at 36..39 of a blob of at least 132 bytes the routine returns
false. -/
theorem ICCProfile_Test_sRGB_no_acsp (icc : List Nat) (tagdata : Nat → Nat)
    (hlen : 132 ≤ icc.length) (hsig : bytesAt icc 36 4 ≠ cstr "acsp") :
    ICCProfile_Test_sRGB (some icc) tagdata = some false := by
  rw [bytesAt_four icc 36 (by omega)] at hsig
  have hacsp : cstr "acsp" = [97, 99, 115, 112] := by decide
  rw [hacsp] at hsig
  unfold ICCProfile_Test_sRGB
  have r36 := readIcc_eq icc 36 (by omega)
  have r37 := readIcc_eq icc 37 (by omega)
  have r38 := readIcc_eq icc 38 (by omega)
  have r39 := readIcc_eq icc 39 (by omega)
  simp only [Nat.cast_ofNat] at r36 r37 r38 r39
  simp only [r36, r37, r38, r39, Option.bind_eq_bind, Option.some_bind, ne_eq]
  by_cases h36 : icc.getD 36 0 = 97
  · by_cases h37 : icc.getD 37 0 = 99
    · by_cases h38 : icc.getD 38 0 = 115
      · by_cases h39 : icc.getD 39 0 = 112
        · exact absurd (by rw [h36, h37, h38, h39]) hsig
        · rw [if_neg (not_not.mpr h36), if_neg (not_not.mpr h37), if_neg (not_not.mpr h38),
            if_pos h39]
          rfl
      · rw [if_neg (not_not.mpr h36), if_neg (not_not.mpr h37), if_pos h38]
        rfl
    · rw [if_neg (not_not.mpr h36), if_pos h37]
      rfl
  · rw [if_pos h36]
    rfl

set_option maxRecDepth 20000 in
/-- C24. For a blob of at least 132 bytes `ICCProfile_Test_sRGB` returns false
when bytes 36..39 are not `"acsp"`; when every table entry below the tag count
that starts inside the blob has its signature inside the blob and different from
`"desc"`; and when the first `"desc"` entry, inside the blob, has
`offset + length > len(blob)` with a sum below 2^31. It returns false for a null
pointer. The code at the failing inputs: on the 132-byte blob with tag count 1
it reads the signature of the entry at offsets 132..135, outside the blob; on the
144-byte blob whose `"desc"` entry has offset `0xFFFFFFF4` and length 30 the sum
computed in `int` is 18, the bounds test passes, and the routine returns true
from the text at offset 0. -/
theorem ICCProfile_Test_sRGB_false_cases (icc : List Nat) (tagdata : Nat → Nat)
    (hlen : 132 ≤ icc.length) :
    ICCProfile_Test_sRGB none tagdata = some false
    ∧ (bytesAt icc 36 4 ≠ cstr "acsp" → ICCProfile_Test_sRGB (some icc) tagdata = some false)
    ∧ (bytesAt icc 36 4 = cstr "acsp" →
        (∀ j, j < be32At icc 128 → 132 + 12 * j ≤ icc.length →
          132 + 12 * j + 4 ≤ icc.length ∧ bytesAt icc (132 + 12 * j) 4 ≠ cstr "desc") →
        ICCProfile_Test_sRGB (some icc) tagdata = some false)
    ∧ (∀ k, bytesAt icc 36 4 = cstr "acsp" → k < be32At icc 128 →
        132 + 12 * (k + 1) ≤ icc.length →
        bytesAt icc (132 + 12 * k) 4 = cstr "desc" →
        (∀ j, j < k → bytesAt icc (132 + 12 * j) 4 ≠ cstr "desc") →
        icc.length < be32At icc (132 + 12 * k + 4) + be32At icc (132 + 12 * k + 8) →
        be32At icc (132 + 12 * k + 4) + be32At icc (132 + 12 * k + 8) < 2 ^ 31 →
        ICCProfile_Test_sRGB (some icc) tagdata = some false)
    ∧ ((iccHeader 1).length = 132 ∧ bytesAt (iccHeader 1) 36 4 = cstr "acsp"
        ∧ be32At (iccHeader 1) 128 = 1
        ∧ ICCProfile_Test_sRGB (some (iccHeader 1)) tagdata = none)
    ∧ (iccWrapped.length = 144 ∧ bytesAt iccWrapped 36 4 = cstr "acsp"
        ∧ be32At iccWrapped 128 = 1 ∧ bytesAt iccWrapped 132 4 = cstr "desc"
        ∧ be32At iccWrapped 136 = 0xFFFFFFF4 ∧ be32At iccWrapped 140 = 30
        ∧ ICCProfile_Test_sRGB (some iccWrapped) tagdata = some true) := by
  refine ⟨rfl, ICCProfile_Test_sRGB_no_acsp icc tagdata hlen, ?_, ?_,
    ⟨rfl, by decide, by decide, rfl⟩, ⟨rfl, by decide, by decide, by decide, by decide,
      by decide, rfl⟩⟩
  · intro hsig hno
    rw [ICCProfile_Test_sRGB_scan icc tagdata hlen hsig]
    apply scanTags_no_desc
    intro j _ hj hin
    have := wrapInt_toNat_le (be32At icc 128)
    exact hno j (by omega) hin
  · intro k hsig hk hin hdesc hfirst hover hsum
    rw [ICCProfile_Test_sRGB_scan icc tagdata hlen hsig]
    by_cases hreach : k < (wrapInt (be32At icc 128 : Int)).toNat
    · rw [scanTags_eq icc tagdata k hin hdesc _ 0 (Nat.zero_le _) (by omega)
        (fun j _ hj => hfirst j hj)]
      have e4 : ((132 + 12 * k : Nat) : Int) + 4 = ((132 + 12 * k + 4 : Nat) : Int) := by
        push_cast; ring
      have e8 : ((132 + 12 * k : Nat) : Int) + 8 = ((132 + 12 * k + 8 : Nat) : Int) := by
        push_cast; ring
      have r4 : readBE32 icc (((132 + 12 * k : Nat) : Int) + 4)
          = some (be32At icc (132 + 12 * k + 4) : Int) := by
        rw [e4, readBE32_eq icc _ (by omega) (by omega)]
      have r8 : readBE32 icc (((132 + 12 * k : Nat) : Int) + 8)
          = some (be32At icc (132 + 12 * k + 8) : Int) := by
        rw [e8, readBE32_eq icc _ (by omega) (by omega)]
      rw [descTag_of_fields icc tagdata _ _ _ r4 r8,
        wrapInt_eq _ (by omega) (by omega), if_pos (by omega)]
    · apply scanTags_no_desc
      intro j _ hj hin2
      exact ⟨by omega, hfirst j (by omega)⟩

set_option maxRecDepth 20000 in
/-- C24 (witness). The theorem at the 132-byte header with tag count 0, where no
entry is `"desc"`, and at the 156-byte profile whose `"desc"` entry has offset
144 and length 100: the routine returns false on both. -/
theorem ICCProfile_Test_sRGB_false_cases_witness :
    ICCProfile_Test_sRGB (some (iccHeader 0)) (fun _ => 7) = some false
    ∧ ICCProfile_Test_sRGB (some (iccWithDesc 100 [])) (fun _ => 7) = some false :=
  ⟨(ICCProfile_Test_sRGB_false_cases (iccHeader 0) (fun _ => 7) (by decide)).2.2.1
      (by decide)
      (fun j hj => absurd hj (by
        rw [show be32At (iccHeader 0) 128 = 0 from by decide]
        exact Nat.not_lt_zero j)),
   (ICCProfile_Test_sRGB_false_cases (iccWithDesc 100 []) (fun _ => 7) (by decide)).2.2.2.1 0
      (by decide) (by decide) (by decide) (by decide)
      (fun j hj => absurd hj (Nat.not_lt_zero j)) (by decide) (by decide)⟩

/-! ## Convolution Engine: loops that may have no result -/

end RwgTex
